import Mathlib

/-!
Verification of the scoring-and-portfolio-construction pipeline of the
investment-chatbot backend (`app/main.py`).

The pipeline is shallowly embedded over exact rationals (`ℚ`), which model the
Python float values; the two irrational primitives used by the code
(`numpy.sqrt` inside the standard-deviation / annualized-volatility
computations, and `numpy.log` inside the trend-slope regression) are taken as
explicit function parameters `sq : ℚ → ℚ` and `lg : ℚ → ℚ` standing for the
float implementations.  Pipeline-level theorems hold for every choice of these
parameters; concrete evaluations instantiate them with `sqrtQ0` (exact on the
perfect squares at which they are evaluated) and the zero function.

Price series are lists of closes, oldest first, one entry per trading day, as
produced by the code's date-ordered SQL query and `groupby("ticker")`.
`NaN` floats (pandas missing values) are modelled as `none : Option ℚ`.
-/

namespace InvestBot

/-- The `1e-9` guard added to denominators in `zscore` and `rsi`. -/
def epsZ : ℚ := 1 / 1000000000

/-- The `1e-6` epsilon used by the weight allocator (`eps` in
`generate_portfolio`). -/
def epsW : ℚ := 1 / 1000000

/-! ### List helpers (minimum, maximum, sorting, rolling windows)

These model the pandas/numpy primitives used by the code: `Series.min`,
`Series.max`, `Series.rolling`, `Series.median`, `DataFrame.sort_values`. -/

/-- Minimum of a list of rationals (`none` on the empty list); models
`Series.min()` applied to the non-NaN entries. -/
def listMin : List ℚ → Option ℚ
  | [] => none
  | x :: xs =>
    match listMin xs with
    | none => some x
    | some m => some (min x m)

/-- Maximum of a list of rationals (`none` on the empty list). -/
def listMax : List ℚ → Option ℚ
  | [] => none
  | x :: xs =>
    match listMax xs with
    | none => some x
    | some m => some (max x m)

/-- Insert into a list kept sorted by descending key. -/
def insertDesc (key : α → ℚ) (x : α) : List α → List α
  | [] => [x]
  | y :: ys => if key y ≤ key x then x :: y :: ys else y :: insertDesc key x ys

/-- Sort by descending key (insertion sort); models
`DataFrame.sort_values(col, ascending=False)`.  The comparison sort used by
pandas is not stable either, and no claim depends on tie order. -/
def sortDesc (key : α → ℚ) : List α → List α
  | [] => []
  | x :: xs => insertDesc key x (sortDesc key xs)

/-- Insert into a list kept sorted ascending. -/
def insertAsc (x : ℚ) : List ℚ → List ℚ
  | [] => [x]
  | y :: ys => if x ≤ y then x :: y :: ys else y :: insertAsc x ys

/-- Sort a list of rationals ascending (insertion sort). -/
def sortAsc : List ℚ → List ℚ
  | [] => []
  | x :: xs => insertAsc x (sortAsc xs)

/-- `Series.median()`: average of the middle element(s) of the sorted values
(junk `0` on an empty list, where pandas yields NaN; the only use site
filters an empty frame to an empty frame either way). -/
def medianQ (xs : List ℚ) : ℚ :=
  let s := sortAsc xs
  let n := s.length
  if n = 0 then 0
  else if n % 2 = 1 then s.getD (n / 2) 0
  else (s.getD (n / 2 - 1) 0 + s.getD (n / 2) 0) / 2

/-- Turn a window of possibly-missing values into `some` of the values iff
none is missing. -/
def allSome : List (Option ℚ) → Option (List ℚ)
  | [] => some []
  | none :: _ => none
  | some x :: xs => (allSome xs).map (x :: ·)

/-- Worker for `rollingW`: `acc` is the reversed list of entries already seen,
so `acc.take w` after pushing the current entry is the current trailing
window (most recent first). -/
def rollingAux (w : ℕ) (f : List ℚ → ℚ) (acc : List (Option ℚ)) :
    List (Option ℚ) → List (Option ℚ)
  | [] => []
  | x :: xs =>
    let acc' := x :: acc
    (if acc'.length < w then none
     else match allSome (acc'.take w) with
          | none => none
          | some vs => some (f vs)) :: rollingAux w f acc' xs

/-- `series.rolling(w).agg(f)` with pandas defaults (`min_periods = w`): entry
`i` is `f` of the trailing `w`-window ending at `i`, and is missing whenever
the window is not yet full or contains a missing value.  The window is passed
to `f` most-recent-first; every `f` used (mean, max, sample std) is
order-independent. -/
def rollingW (w : ℕ) (f : List ℚ → ℚ) (xs : List (Option ℚ)) : List (Option ℚ) :=
  rollingAux w f [] xs

/-- Arithmetic mean of a list (junk on `[]`; only applied to full windows). -/
def meanQ (vs : List ℚ) : ℚ := vs.sum / vs.length

/-- Sample variance (`ddof = 1`, as pandas `std` uses; junk on lists shorter
than 2, which the call sites exclude). -/
def sampleVar (vs : List ℚ) : ℚ :=
  (vs.map (fun x => (x - meanQ vs) ^ 2)).sum / ((vs.length : ℚ) - 1)

/-- A concrete stand-in for float square root used to instantiate concrete
runs: exact whenever numerator and denominator of the (reduced) argument are
perfect squares, which is the case everywhere it is evaluated below. -/
def sqrtQ0 (q : ℚ) : ℚ := (Int.sqrt q.num : ℚ) / (Nat.sqrt q.den : ℚ)

/-! ### Indicator library (`ema`, `rsi`, `macd`, `annualized_vol`,
`max_drawdown`, `trend_slope`, `recent_strength`, `momentum`) -/

/-- Worker for `ema`: `e` is the previous smoothed value. -/
def emaFrom (a : ℚ) (e : ℚ) : List ℚ → List ℚ
  | [] => []
  | x :: xs =>
    let e' := a * x + (1 - a) * e
    e' :: emaFrom a e' xs

/-- `ema(series, span) = series.ewm(span=span, adjust=False).mean()`:
exponential moving average with smoothing factor `2/(span+1)`, seeded by the
first observation. -/
def ema (span : ℕ) (xs : List ℚ) : List ℚ :=
  match xs with
  | [] => []
  | x :: rest => x :: emaFrom (2 / ((span : ℚ) + 1)) x rest

/-- `series.diff()`: first entry missing, then consecutive differences. -/
def diffQ (xs : List ℚ) : List (Option ℚ) :=
  match xs with
  | [] => []
  | _ :: _ => none :: (List.zipWith (fun prev cur => some (cur - prev)) xs (xs.drop 1))

/-- `np.where(delta > 0, delta, 0.0)`: positive part of each difference; the
leading NaN of `diff` compares false and becomes `0.0`, exactly as in numpy. -/
def upMoves (xs : List ℚ) : List ℚ :=
  (diffQ xs).map fun d? =>
    match d? with
    | none => 0
    | some d => if 0 < d then d else 0

/-- `np.where(delta < 0, -delta, 0.0)`: negative part of each difference, with
the same NaN-to-`0.0` behaviour at the head. -/
def downMoves (xs : List ℚ) : List ℚ :=
  (diffQ xs).map fun d? =>
    match d? with
    | none => 0
    | some d => if d < 0 then -d else 0

/-- `rsi(series, period)`: rolling means of up- and down-moves, then
`100 - 100/(1 + roll_up/(roll_down + 1e-9))`, entrywise. -/
def rsiSeries (xs : List ℚ) (period : ℕ) : List (Option ℚ) :=
  List.zipWith
    (fun u? d? => do
      let u ← u?
      let d ← d?
      pure (100 - 100 / (1 + u / (d + epsZ))))
    (rollingW period meanQ ((upMoves xs).map some))
    (rollingW period meanQ ((downMoves xs).map some))

/-- The pipeline's `rsi(close, 14).iloc[-1]`. -/
def rsiLast (xs : List ℚ) : Option ℚ := (rsiSeries xs 14).getLastD none

/-- `macd(series)`: `(macd_line, signal_line)` with the default spans
12/26/9; the histogram (third component in the code) is never used by the
pipeline and is omitted. -/
def macdLines (xs : List ℚ) : List ℚ × List ℚ :=
  let macd_line := List.zipWith (· - ·) (ema 12 xs) (ema 26 xs)
  (macd_line, ema 9 macd_line)

/-- `series.pct_change()`: first entry missing, then fractional changes. -/
def pctChange (xs : List ℚ) : List (Option ℚ) :=
  match xs with
  | [] => []
  | _ :: _ => none :: (List.zipWith (fun prev cur => some (cur / prev - 1)) xs (xs.drop 1))

/-- `annualized_vol(close, window)`: last entry of the rolling sample standard
deviation of daily returns, times `sqrt(252)`; missing when that last entry
is missing. -/
def annualized_vol (sq : ℚ → ℚ) (xs : List ℚ) (window : ℕ) : Option ℚ :=
  match (rollingW window (fun vs => sq (sampleVar vs)) (pctChange xs)).getLastD none with
  | none => none
  | some v => some (v * sq 252)

/-- `max_drawdown(close, window)`: minimum over the series of
`close / rolling_max(window) - 1`; entries with an unfilled window are NaN and
are skipped by `Series.min()`, so the result is missing iff the series is
shorter than the window. -/
def max_drawdown (xs : List ℚ) (window : ℕ) : Option ℚ :=
  let dd := List.zipWith
    (fun c m? => m?.map (fun m => c / m - 1))
    xs (rollingW window (fun vs => (listMax vs).getD 0) (xs.map some))
  listMin dd.reduceOption

/-- `trend_slope(close, window)`: least-squares slope of log-price against a
0-based day index over the trailing `window` observations, times 252; missing
when fewer than 10 points are available.  `np.polyfit(x, y, 1)` computes the
exact least-squares slope `Σ(xᵢ-x̄)(yᵢ-ȳ) / Σ(xᵢ-x̄)²`. -/
def trend_slope (lg : ℚ → ℚ) (xs : List ℚ) (window : ℕ) : Option ℚ :=
  let s := xs.drop (xs.length - window)
  if s.length < 10 then none
  else
    let y := s.map lg
    let k := y.length
    let xbar : ℚ := ((k : ℚ) - 1) / 2
    let ybar : ℚ := y.sum / (k : ℚ)
    let num := (List.zipWith (fun i yi => ((i : ℚ) - xbar) * (yi - ybar)) (List.range k) y).sum
    let den := ((List.range k).map (fun i => ((i : ℚ) - xbar) ^ 2)).sum
    some (num / den * 252)

/-- `recent_strength(close)`: the last 5 entries of `pct_change` (fewer if the
series is shorter), counting how many are strictly positive over the length of
that tail — the tail *includes* the leading NaN when the series has at most 5
points, and `NaN > 0` counts as false, as in pandas; missing only when the
tail is empty, i.e. only for an empty series. -/
def recent_strength (xs : List ℚ) : Option ℚ :=
  let r := (pctChange xs).drop ((pctChange xs).length - 5)
  if r.length = 0 then none
  else some ((r.countP (fun x? => match x? with
      | some v => decide (0 < v)
      | none => false) : ℚ) / (r.length : ℚ))

/-- `momentum(close, window)`: `close.iloc[-1]/close.iloc[-window] - 1`,
missing when fewer than `window + 1` observations exist. -/
def momentum (xs : List ℚ) (window : ℕ) : Option ℚ :=
  if xs.length < window + 1 then none
  else some (xs.getLastD 0 / xs.getD (xs.length - window) 0 - 1)

/-! ### Indicator aggregation (the per-ticker loop of `generate_portfolio`) -/

/-- One row of the indicator DataFrame built by the loop in
`generate_portfolio` (`ind_rows.append({...})`).  Fields that the code can
fill with NaN floats are `Option ℚ`; `price`, `macd`, `macd_signal` are always
defined because the loop only runs on series long enough for `ema` to be
seeded. -/
structure IndRow where
  ticker : String
  price : ℚ
  rsi : Option ℚ
  macd : ℚ
  macd_signal : ℚ
  macd_above_sig : Bool
  macd_above_zero : Bool
  vol30 : Option ℚ
  dd90 : Option ℚ
  mom20 : Option ℚ
  trend_slope : Option ℚ
  recent_strength : Option ℚ
  deriving Repr, DecidableEq

/-- The body of the per-ticker loop: compute all indicators of one close
series and assemble the row dictionary. -/
def mkIndRow (sq lg : ℚ → ℚ) (t : String) (close : List ℚ) : IndRow :=
  let ml := (macdLines close).1
  let ms := (macdLines close).2
  { ticker := t
    price := close.getLastD 0
    rsi := rsiLast close
    macd := ml.getLastD 0
    macd_signal := ms.getLastD 0
    macd_above_sig := decide (ms.getLastD 0 < ml.getLastD 0)
    macd_above_zero := decide (0 < ml.getLastD 0)
    vol30 := annualized_vol sq close 30
    dd90 := max_drawdown close 90
    mom20 := momentum close 20
    trend_slope := trend_slope lg close 90
    recent_strength := recent_strength close }

/-- The full aggregation loop over the grouped price table: one row per
ticker whose series has at least `minBars` observations; shorter tickers are
skipped (`continue`). -/
def aggregate (sq lg : ℚ → ℚ) (minBars : ℕ)
    (priceTab : List (String × List ℚ)) : List IndRow :=
  priceTab.filterMap fun p =>
    if p.2.length < minBars then none else some (mkIndRow sq lg p.1 p.2)

/-! ### Scoring engine (`zscore`, `build_scores`, `dropna`) -/

/-- `series.mean()` of a column with pandas NaN-skipping: mean of the defined
entries, NaN when there are none. -/
def colMean (xs : List (Option ℚ)) : Option ℚ :=
  let vs := xs.reduceOption
  if vs.length = 0 then none else some (meanQ vs)

/-- `series.std()` of a column: sample standard deviation (`ddof = 1`) of the
defined entries, NaN when fewer than two are defined. -/
def colStd (sq : ℚ → ℚ) (xs : List (Option ℚ)) : Option ℚ :=
  let vs := xs.reduceOption
  if vs.length < 2 then none else some (sq (sampleVar vs))

/-- `zscore(series) = (series - series.mean()) / (series.std() + 1e-9)`,
entrywise over a column; an entry is NaN when the entry itself, the mean, or
the std is NaN. -/
def zscoreCol (sq : ℚ → ℚ) (xs : List (Option ℚ)) : List (Option ℚ) :=
  xs.map fun x? => do
    let x ← x?
    let m ← colMean xs
    let s ← colStd sq xs
    pure ((x - m) / (s + epsZ))

/-- The scoring weights `WEIGHTS` (0.25 / 0.20 / 0.15 / 0.15 / 0.10 / 0.10 /
0.05 as exact rationals). -/
def wTrend : ℚ := 1 / 4
def wMom : ℚ := 1 / 5
def wRsiQ : ℚ := 3 / 20
def wMacdQ : ℚ := 3 / 20
def wLowVol : ℚ := 1 / 10
def wLowDD : ℚ := 1 / 10
def wRStrength : ℚ := 1 / 20

/-- An `IndRow` extended with the z-score columns and the combined score added
by `build_scores`. -/
structure ScoredRow extends IndRow where
  z_trend : Option ℚ
  z_mom20 : Option ℚ
  z_rsiQ : Option ℚ
  z_macdQ : Option ℚ
  z_lowVol : Option ℚ
  z_lowDD : Option ℚ
  z_rstrength : Option ℚ
  score : Option ℚ
  deriving Repr, DecidableEq

/-- Worker for `build_scores`: walk the rows in order, pairing each with entry
`i` of each precomputed z-score column. -/
def scoreRows (zt zm zr zq zv zd zs : List (Option ℚ)) : ℕ → List IndRow → List ScoredRow
  | _, [] => []
  | i, r :: rs =>
    { toIndRow := r
      z_trend := zt.getD i none
      z_mom20 := zm.getD i none
      z_rsiQ := zr.getD i none
      z_macdQ := zq.getD i none
      z_lowVol := zv.getD i none
      z_lowDD := zd.getD i none
      z_rstrength := zs.getD i none
      score := do
        let a ← zt.getD i none
        let b ← zm.getD i none
        let c ← zr.getD i none
        let d ← zq.getD i none
        let e ← zv.getD i none
        let f ← zd.getD i none
        let g ← zs.getD i none
        pure (wTrend * a + wMom * b + wRsiQ * c + wMacdQ * d
              + wLowVol * e + wLowDD * f + wRStrength * g) } :: scoreRows zt zm zr zq zv zd zs (i + 1) rs

/-- `build_scores(ind_df)`: z-score each feature column across the candidate
set (`z_lowVol` and `z_lowDD` negated, `rsi` and the MACD booleans transformed
first), then combine them with the fixed weights into `score`. -/
def build_scores (sq : ℚ → ℚ) (rows : List IndRow) : List ScoredRow :=
  let zt := zscoreCol sq (rows.map (·.trend_slope))
  let zm := zscoreCol sq (rows.map (·.mom20))
  let zr := zscoreCol sq (rows.map fun r => r.rsi.map (fun x => 1 - |x - 55| / 55))
  let zq := zscoreCol sq (rows.map fun r =>
    some (((if r.macd_above_sig then (1 : ℚ) else 0) + (if r.macd_above_zero then (1 : ℚ) else 0)) / 2))
  let zv := (zscoreCol sq (rows.map (·.vol30))).map (fun z? => z?.map (- ·))
  let zd := (zscoreCol sq (rows.map fun r => r.dd90.map (- ·))).map (fun z? => z?.map (- ·))
  let zs := zscoreCol sq (rows.map (·.recent_strength))
  scoreRows zt zm zr zq zv zd zs 0 rows

/-- A fully-defined scored row, as survives `DataFrame.dropna()`. -/
structure SRow where
  ticker : String
  price : ℚ
  rsi : ℚ
  macd : ℚ
  macd_signal : ℚ
  macd_above_sig : Bool
  macd_above_zero : Bool
  vol30 : ℚ
  dd90 : ℚ
  mom20 : ℚ
  trend_slope : ℚ
  recent_strength : ℚ
  z_trend : ℚ
  z_mom20 : ℚ
  z_rsiQ : ℚ
  z_macdQ : ℚ
  z_lowVol : ℚ
  z_lowDD : ℚ
  z_rstrength : ℚ
  score : ℚ
  deriving Repr, DecidableEq

/-- `.dropna()`: keep exactly the rows with no NaN in any column, extracting
their values. -/
def dropna (rows : List ScoredRow) : List SRow :=
  rows.filterMap fun r => do
    let rsi ← r.rsi
    let vol30 ← r.vol30
    let dd90 ← r.dd90
    let mom20 ← r.mom20
    let ts ← r.trend_slope
    let rst ← r.recent_strength
    let zt ← r.z_trend
    let zm ← r.z_mom20
    let zr ← r.z_rsiQ
    let zq ← r.z_macdQ
    let zv ← r.z_lowVol
    let zd ← r.z_lowDD
    let zs ← r.z_rstrength
    let sc ← r.score
    pure { ticker := r.ticker, price := r.price, rsi := rsi, macd := r.macd
           macd_signal := r.macd_signal, macd_above_sig := r.macd_above_sig
           macd_above_zero := r.macd_above_zero, vol30 := vol30, dd90 := dd90
           mom20 := mom20, trend_slope := ts, recent_strength := rst
           z_trend := zt, z_mom20 := zm, z_rsiQ := zr, z_macdQ := zq
           z_lowVol := zv, z_lowDD := zd, z_rstrength := zs, score := sc }

/-! ### Risk filter, selector, weight allocator, portfolio builder -/

/-- `picks_by_preferences(risk, diversification, pool)`: base target count
from the diversification preference (silently defaulting to 5 on an unknown
value, via `dict.get`), nudged by the risk tier.  The `pool` argument is
unused by the code; it is kept for fidelity. -/
def picks_by_preferences (risk diversification : String) (pool : List SRow) : ℕ :=
  let _ := pool
  let base : ℤ :=
    if diversification = "concentrated" then 3
    else if diversification = "balanced" then 5
    else if diversification = "full" then 8
    else 5
  (if risk = "low" then max 4 (base + 1)
   else if risk = "high" then max 3 (base - 1)
   else base).toNat

/-- `risk_filters(risk, df)`: `low` keeps rows with volatility strictly below
the cross-sectional median and drawdown shallower than −25%; `high` keeps rows
with drawdown shallower than −60%; anything else passes through. -/
def risk_filters (risk : String) (rows : List SRow) : List SRow :=
  if risk = "low" then
    let med := medianQ (rows.map (·.vol30))
    rows.filter fun r => decide (r.vol30 < med) && decide (-(1 / 4 : ℚ) < r.dd90)
  else if risk = "high" then
    rows.filter fun r => decide (-(3 / 5 : ℚ) < r.dd90)
  else rows

/-- Round half-to-even to an integer, as Python's `round` does (`round` in
Mathlib rounds half up, so the exact-half case is corrected to even). -/
def rhe (q : ℚ) : ℤ :=
  if Int.fract q = 1 / 2 then 2 * round (q / 2) else round q

/-- Python's `round(x, 2)`. -/
def round2 (q : ℚ) : ℚ := (rhe (q * 100) : ℚ) / 100

/-- Python's `round(x, 3)`. -/
def round3 (q : ℚ) : ℚ := (rhe (q * 1000) : ℚ) / 1000

/-- Python's `str.lower()` for the ASCII request fields (`risk_level.lower()`,
`diversification.lower()`), as a structural map over the characters. -/
def strLower (s : String) : String := ⟨s.data.map Char.toLower⟩

/-- One entry of `recommended_assets`. -/
structure Asset where
  ticker : String
  allocation_pct : ℚ
  ai_score : ℚ
  deriving Repr, DecidableEq

/-- The weight-allocation step of `generate_portfolio`: shift scores so the
minimum becomes `eps = 1e-6`, clip below at `eps`, normalize to sum 1,
convert to percentages rounded to 2 decimals (scores rounded to 3). -/
def allocations (top : List SRow) : List Asset :=
  let m := (listMin (top.map (·.score))).getD 0
  let shifted := top.map fun r => max epsW (r.score - m + epsW)
  let total := shifted.sum
  List.zipWith
    (fun r w => { ticker := r.ticker
                  allocation_pct := round2 (w / total * 100)
                  ai_score := round3 r.score })
    top shifted

/-- The `summary` block of the response. -/
structure Summary where
  assets_analyzed : ℕ
  recommended : ℕ
  avg_score : Option ℚ
  deriving Repr, DecidableEq

/-- The successful response body (the wall-clock `timestamp` field is outside
the model). -/
structure PResult where
  recommended_assets : List Asset
  summary : Summary
  deriving Repr, DecidableEq

/-- The `HTTPException`s raised by `generate_portfolio`: 404 "no tickers in
DB", 404 "no prices in DB", 500 "insufficient data for indicators". -/
inductive PErr where
  | noTickers
  | noPrices
  | insufficientData
  deriving Repr, DecidableEq

/-- `generate_portfolio(req)`.  `universe` models the ticker list returned by
`fetch_universe`, `priceTab` the date-ordered close series per ticker as
produced by `fetch_prices` + `groupby` (a DataFrame with zero rows groups into
series that are all empty), and `minBars` the `MIN_BARS` configuration.  After
the three emptiness checks the code always returns a result — there is no
check between risk filtering and the response. -/
def generate_portfolio (sq lg : ℚ → ℚ) (minBars : ℕ) (risk diversification : String)
    (univ : List String) (priceTab : List (String × List ℚ)) :
    Except PErr PResult :=
  if univ.isEmpty then .error .noTickers
  else if priceTab.all (fun p => p.2.isEmpty) then .error .noPrices
  else
    let ind_rows := aggregate sq lg minBars priceTab
    if ind_rows.isEmpty then .error .insufficientData
    else
      let scored0 := dropna (build_scores sq ind_rows)
      let scored := risk_filters (strLower risk) scored0
      let top_n := picks_by_preferences (strLower risk) (strLower diversification) scored
      let top := (sortDesc (·.score) scored).take top_n
      let assets := allocations top
      .ok { recommended_assets := assets
            summary := { assets_analyzed := scored.length
                         recommended := assets.length
                         avg_score := if top.isEmpty then none
                                      else some (round3 (meanQ (top.map (·.score)))) } }

/-! ### General lemmas about the list helpers -/

lemma getLastD_eq_getD (l : List α) (d : α) : l.getLastD d = l.getD (l.length - 1) d := by
  rw [List.getLastD_eq_getLast?, List.getLast?_eq_getElem?, List.getD_eq_getElem?_getD]

lemma getD_replicate (a d : α) : ∀ (n i : ℕ), (List.replicate n a).getD i d = if i < n then a else d
  | 0, _ => by simp
  | n + 1, 0 => by simp [List.replicate_succ]
  | n + 1, i + 1 => by
    rw [List.replicate_succ, List.getD_cons_succ, getD_replicate a d n i]
    simp [Nat.succ_lt_succ_iff]

lemma getLastD_replicate (a d : α) (n : ℕ) (hn : n ≠ 0) :
    (List.replicate n a).getLastD d = a := by
  rw [getLastD_eq_getD, List.length_replicate, getD_replicate]
  simp [Nat.sub_lt, Nat.pos_of_ne_zero hn]

lemma listMin_spec : ∀ {l : List ℚ} {m : ℚ}, listMin l = some m → m ∈ l ∧ ∀ x ∈ l, m ≤ x := by
  intro l
  induction l with
  | nil => simp [listMin]
  | cons x xs ih =>
    intro m h
    rw [listMin] at h
    cases hx : listMin xs with
    | none =>
      rw [hx] at h
      obtain rfl : x = m := by simpa using h
      have hxs : xs = [] := by
        cases xs with
        | nil => rfl
        | cons y ys =>
          rw [listMin] at hx
          rcases h' : listMin ys with _ | v <;> simp [h'] at hx
      subst hxs
      simp
    | some m' =>
      rw [hx] at h
      obtain ⟨hm', hle⟩ := ih hx
      obtain rfl : min x m' = m := by simpa using h
      constructor
      · rcases le_total x m' with h' | h'
        · simp [min_eq_left h']
        · simp [min_eq_right h', hm']
      · intro y hy
        rcases List.mem_cons.mp hy with rfl | hy
        · exact min_le_left _ _
        · exact le_trans (min_le_right _ _) (hle y hy)

lemma listMin_isSome {l : List ℚ} (h : l ≠ []) : ∃ m, listMin l = some m := by
  cases l with
  | nil => simp at h
  | cons x xs =>
    rw [listMin]
    cases listMin xs <;> simp

lemma listMax_spec : ∀ {l : List ℚ} {m : ℚ}, listMax l = some m → m ∈ l ∧ ∀ x ∈ l, x ≤ m := by
  intro l
  induction l with
  | nil => simp [listMax]
  | cons x xs ih =>
    intro m h
    rw [listMax] at h
    cases hx : listMax xs with
    | none =>
      rw [hx] at h
      obtain rfl : x = m := by simpa using h
      have hxs : xs = [] := by
        cases xs with
        | nil => rfl
        | cons y ys =>
          rw [listMax] at hx
          rcases h' : listMax ys with _ | v <;> simp [h'] at hx
      subst hxs
      simp
    | some m' =>
      rw [hx] at h
      obtain ⟨hm', hle⟩ := ih hx
      obtain rfl : max x m' = m := by simpa using h
      constructor
      · rcases le_total x m' with h' | h'
        · simp [max_eq_right h', hm']
        · simp [max_eq_left h']
      · intro y hy
        rcases List.mem_cons.mp hy with rfl | hy
        · exact le_max_left _ _
        · exact le_trans (hle y hy) (le_max_right _ _)

lemma listMax_isSome {l : List ℚ} (h : l ≠ []) : ∃ m, listMax l = some m := by
  cases l with
  | nil => simp at h
  | cons x xs =>
    rw [listMax]
    cases listMax xs <;> simp

lemma listMax_replicate (c : ℚ) (n : ℕ) (hn : n ≠ 0) :
    listMax (List.replicate n c) = some c := by
  induction n with
  | zero => simp at hn
  | succ n ih =>
    rw [List.replicate_succ, listMax]
    cases n with
    | zero => simp [listMax]
    | succ m => rw [ih (by omega)]; simp

lemma allSome_map_some (l : List ℚ) : allSome (l.map some) = some l := by
  induction l with
  | nil => rfl
  | cons x xs ih => simp [allSome, ih]

lemma allSome_eq_none {l : List (Option ℚ)} (h : none ∈ l) : allSome l = none := by
  induction l with
  | nil => simp at h
  | cons x xs ih =>
    cases x with
    | none => rfl
    | some v =>
      rcases List.mem_cons.mp h with h' | h'
      · exact absurd h'.symm (by simp)
      · simp [allSome, ih h']

lemma zipWith_map_right_self (f : α → β → γ) (g : α → β) (l : List α) :
    List.zipWith f l (l.map g) = l.map fun x => f x (g x) := by
  induction l with
  | nil => rfl
  | cons x xs ih => simp [ih]

lemma zipWith_replicate_left (f : α → β → γ) (a : α) :
    ∀ (n : ℕ) (l : List β), List.zipWith f (List.replicate n a) l = (l.take n).map (f a)
  | 0, _ => by simp
  | n + 1, [] => by simp
  | n + 1, b :: bs => by
    simp [List.replicate_succ, zipWith_replicate_left f a n bs]

lemma zipWith_replicate_right (f : α → β → γ) (b : β) :
    ∀ (l : List α) (n : ℕ), List.zipWith f l (List.replicate n b) = (l.take n).map (f · b)
  | [], _ => by simp
  | a :: as, 0 => by simp
  | a :: as, n + 1 => by
    simp [List.replicate_succ, zipWith_replicate_right f b as n]

lemma countP_replicate (p : α → Bool) (a : α) (n : ℕ) :
    (List.replicate n a).countP p = if p a then n else 0 := by
  induction n with
  | zero => simp
  | succ n ih =>
    rw [List.replicate_succ, List.countP_cons, ih]
    by_cases h : p a <;> simp [h]

/-! ### Rolling-window characterization -/

lemma rollingAux_length (w : ℕ) (f : List ℚ → ℚ) :
    ∀ (acc l : List (Option ℚ)), (rollingAux w f acc l).length = l.length := by
  intro acc l
  induction l generalizing acc with
  | nil => rfl
  | cons x xs ih => simp [rollingAux, ih]

lemma rollingW_length (w : ℕ) (f : List ℚ → ℚ) (l : List (Option ℚ)) :
    (rollingW w f l).length = l.length := rollingAux_length w f [] l

lemma rollingAux_eq (w : ℕ) (f : List ℚ → ℚ) :
    ∀ (l acc : List (Option ℚ)),
      rollingAux w f acc l = (List.range l.length).map fun j =>
        let pre := (l.take (j + 1)).reverse ++ acc
        if pre.length < w then none
        else match allSome (pre.take w) with
             | none => none
             | some vs => some (f vs) := by
  intro l
  induction l with
  | nil => intro acc; rfl
  | cons x xs ih =>
    intro acc
    rw [rollingAux, ih (x :: acc)]
    rw [show (x :: xs).length = xs.length + 1 from rfl, List.range_succ_eq_map,
      List.map_cons, List.map_map]
    refine congrArg₂ List.cons ?_ ?_
    · simp
    · refine List.map_congr_left fun j _ => ?_
      simp [Function.comp, List.take_succ_cons, List.reverse_cons, List.append_assoc]

lemma rollingW_getLastD (w : ℕ) (f : List ℚ → ℚ) (l : List (Option ℚ)) (h : l ≠ []) :
    (rollingW w f l).getLastD none =
      if l.length < w then none
      else match allSome (l.reverse.take w) with
           | none => none
           | some vs => some (f vs) := by
  obtain ⟨n, hn⟩ : ∃ n, l.length = n + 1 :=
    ⟨l.length - 1, by cases l with | nil => simp at h | cons a as => simp⟩
  rw [rollingW, rollingAux_eq, hn, List.range_succ, List.map_append, List.map_cons,
    List.map_nil, List.getLastD_concat]
  have hppre : (l.take (n + 1)).reverse ++ [] = l.reverse := by
    simp [List.take_of_length_le (le_of_eq hn)]
  simp only [hppre]
  rw [List.length_reverse, hn]

lemma rollingW_map_some_getLastD (w : ℕ) (f : List ℚ → ℚ) (l : List ℚ) (h : l ≠ []) :
    (rollingW w f (l.map some)).getLastD none =
      if l.length < w then none else some (f (l.reverse.take w)) := by
  rw [rollingW_getLastD w f _ (by simpa using h)]
  rw [← List.map_reverse, ← List.map_take, allSome_map_some]
  simp

lemma getLastD_ne_nil {l : List α} (h : l ≠ []) (d₁ d₂ : α) :
    l.getLastD d₁ = l.getLastD d₂ := by
  rw [List.getLastD_eq_getLast?, List.getLastD_eq_getLast?]
  cases hl : l.getLast? with
  | none => exact absurd (List.getLast?_eq_none_iff.mp hl) h
  | some x => rfl

lemma getLastD_zipWith (f : α → β → γ) :
    ∀ (as : List α) (bs : List β) (d : γ) (da : α) (db : β),
      as.length = bs.length → as ≠ [] →
      (List.zipWith f as bs).getLastD d = f (as.getLastD da) (bs.getLastD db)
  | [], _, _, _, _, _, h => absurd rfl h
  | a :: as, [], _, _, _, hlen, _ => by simp at hlen
  | [a], b :: bs, d, da, db, hlen, _ => by
    obtain rfl : bs = [] := by
      cases bs with
      | nil => rfl
      | cons y ys => simp at hlen
    rfl
  | a :: a2 :: as, b :: bs, d, da, db, hlen, _ => by
    calc (List.zipWith f (a :: a2 :: as) (b :: bs)).getLastD d
        = (List.zipWith f (a2 :: as) bs).getLastD (f a b) := by
          rw [List.zipWith_cons_cons, List.getLastD_cons]
      _ = f ((a2 :: as).getLastD a) (bs.getLastD b) :=
          getLastD_zipWith f (a2 :: as) bs (f a b) a b (by simpa using hlen) (by simp)
      _ = f ((a :: a2 :: as).getLastD da) ((b :: bs).getLastD db) := by
          rw [List.getLastD_cons da a (a2 :: as), List.getLastD_cons db b bs]

lemma diffQ_length (xs : List ℚ) : (diffQ xs).length = xs.length := by
  cases xs with
  | nil => rfl
  | cons x rest => simp [diffQ]

lemma pctChange_length (xs : List ℚ) : (pctChange xs).length = xs.length := by
  cases xs with
  | nil => rfl
  | cons x rest => simp [pctChange]

lemma upMoves_length (xs : List ℚ) : (upMoves xs).length = xs.length := by
  rw [upMoves, List.length_map, diffQ_length]

lemma downMoves_length (xs : List ℚ) : (downMoves xs).length = xs.length := by
  rw [downMoves, List.length_map, diffQ_length]

lemma pctChange_head_mem {xs : List ℚ} (h : xs ≠ []) : (none : Option ℚ) ∈ pctChange xs := by
  cases xs with
  | nil => exact absurd rfl h
  | cons x rest => simp [pctChange]

/-! ### Claim theorems: momentum (C10) -/

/-- C10: for every price series with at least `window + 1` points,
`momentum(series, window)` equals the last price divided by the price sitting
`window - 1` positions before the last, minus 1, and `momentum` is undefined
exactly when the series has fewer than `window + 1` points. -/
theorem c10_theorem (xs : List ℚ) (w : ℕ) (hw : 1 ≤ w) :
    (w + 1 ≤ xs.length →
      momentum xs w =
        some (xs.getD (xs.length - 1) 0 / xs.getD (xs.length - 1 - (w - 1)) 0 - 1)) ∧
    (momentum xs w = none ↔ xs.length < w + 1) := by
  constructor
  · intro h
    have hidx : xs.length - 1 - (w - 1) = xs.length - w := by omega
    rw [momentum, if_neg (by omega), getLastD_eq_getD, hidx]
  · rw [momentum]
    by_cases h : xs.length < w + 1 <;> simp [h]

/-- Witness for C10 at the series `[1, 2, 4]` with `window = 2`: the reference
price is `2` (one position before the last), not `1`. -/
theorem c10_witness :
    momentum [(1 : ℚ), 2, 4] 2 =
      some ([(1 : ℚ), 2, 4].getD 2 0 / [(1 : ℚ), 2, 4].getD (3 - 1 - (2 - 1)) 0 - 1) := by
  have h := (c10_theorem [(1 : ℚ), 2, 4] 2 (by norm_num)).1 (by norm_num)
  simpa using h

/-! ### Claim theorems: insufficient-data behaviour of the indicators (C6) -/

/-- C6 counterexample: a one-point series provides no daily returns
(`pct_change` is a single NaN), yet `recent_strength` returns the numeric
value `0.0` — not the undefined marker — because the 5-tail of the returns is
non-empty and the NaN merely counts as a non-positive entry. -/
theorem c6_counterexample :
    recent_strength [(5 : ℚ)] ≠ none ∧ recent_strength [(5 : ℚ)] = some 0 := by
  have h2 : recent_strength [(5 : ℚ)] = some 0 := by
    norm_num [recent_strength, pctChange, List.countP, List.countP.go]
  refine ⟨by rw [h2]; simp, h2⟩

/-- C6 amended: `annualized_vol`, `momentum`, `trend_slope` and the final RSI
value return the undefined marker (never a numeric zero) on insufficient data;
`recent_strength`, however, is undefined only for an *empty* series and
returns the numeric `0.0` for a one-point series even though no daily return
exists there. -/
theorem c6_amended :
    (∀ (sq : ℚ → ℚ) (xs : List ℚ), 1 ≤ xs.length → xs.length ≤ 30 →
      annualized_vol sq xs 30 = none) ∧
    (∀ (xs : List ℚ) (w : ℕ), xs.length < w + 1 → momentum xs w = none) ∧
    (∀ (lg : ℚ → ℚ) (xs : List ℚ), xs.length < 10 → trend_slope lg xs 90 = none) ∧
    (∀ xs : List ℚ, xs.length < 14 → rsiLast xs = none) ∧
    recent_strength ([] : List ℚ) = none ∧
    (∀ c : ℚ, recent_strength [c] = some 0) := by
  refine ⟨?_, ?_, ?_, ?_, ?_, ?_⟩
  · intro sq xs h1 h30
    have hne : pctChange xs ≠ [] := by
      intro h
      have hl := pctChange_length xs
      rw [h] at hl
      simp at hl
      omega
    rw [annualized_vol, rollingW_getLastD 30 _ _ hne, pctChange_length]
    by_cases hlt : xs.length < 30
    · simp [hlt]
    · rw [if_neg hlt]
      have hmem : (none : Option ℚ) ∈ (pctChange xs).reverse.take 30 := by
        have hlen : (pctChange xs).reverse.length ≤ 30 := by
          simp [pctChange_length]
          omega
        rw [List.take_of_length_le hlen]
        exact List.mem_reverse.mpr (pctChange_head_mem (by intro h; subst h; simp at h1))
      rw [allSome_eq_none hmem]
  · intro xs w h
    rw [momentum, if_pos h]
  · intro lg xs h
    rw [trend_slope, if_pos]
    simp only [List.length_drop]
    omega
  · intro xs hlen
    by_cases h0 : xs = []
    · subst h0
      rfl
    · have hu : upMoves xs ≠ [] := by
        intro h
        have := upMoves_length xs
        rw [h] at this
        exact h0 (List.length_eq_zero.mp this.symm)
      rw [rsiLast, rsiSeries,
        getLastD_zipWith _ _ _ none none none
          (by simp [rollingW_length, upMoves_length, downMoves_length])
          (by
            intro hc
            have hl := rollingW_length 14 meanQ ((upMoves xs).map some)
            rw [hc] at hl
            simp [upMoves_length] at hl
            exact h0 (List.length_eq_zero.mp hl.symm)),
        rollingW_map_some_getLastD _ _ _ hu, upMoves_length, if_pos hlen]
      rfl
  · rfl
  · intro c
    norm_num [recent_strength, pctChange, List.countP, List.countP.go]

/-- Witness for C6 (amended) at concrete short series: every indicator except
`recent_strength` reports undefined, while `recent_strength` reports `0.0` on
a one-point series. -/
theorem c6_witness :
    annualized_vol sqrtQ0 [(1 : ℚ), 2] 30 = none ∧
    momentum [(1 : ℚ), 2] 20 = none ∧
    trend_slope (fun _ => 0) [(1 : ℚ), 2] 90 = none ∧
    rsiLast [(1 : ℚ), 2] = none ∧
    recent_strength ([] : List ℚ) = none ∧
    recent_strength [(5 : ℚ)] = some 0 :=
  ⟨c6_amended.1 sqrtQ0 [(1 : ℚ), 2] (by norm_num) (by norm_num),
   c6_amended.2.1 [(1 : ℚ), 2] 20 (by norm_num),
   c6_amended.2.2.1 (fun _ => 0) [(1 : ℚ), 2] (by norm_num),
   c6_amended.2.2.2.1 [(1 : ℚ), 2] (by norm_num),
   c6_amended.2.2.2.2.1,
   c6_amended.2.2.2.2.2 5⟩

/-! ### Claim theorems: the RSI zero-loss edge case (C3) -/

/-- The series `close / close.rolling(window).max() - 1` inside
`max_drawdown`, as a named list for the lemmas below. -/
def ddList (xs : List ℚ) (window : ℕ) : List (Option ℚ) :=
  List.zipWith
    (fun c m? => m?.map (fun m => c / m - 1))
    xs (rollingW window (fun vs => (listMax vs).getD 0) (xs.map some))

lemma max_drawdown_eq (xs : List ℚ) (w : ℕ) :
    max_drawdown xs w = listMin (ddList xs w).reduceOption := rfl

/-- The trailing `w`-window of the series ending at index `i` (most recent
first), as pandas `rolling` sees it. -/
def winAt (xs : List ℚ) (w i : ℕ) : List ℚ := ((xs.take (i + 1)).reverse).take w

lemma rollingW_getD (w : ℕ) (f : List ℚ → ℚ) (l : List (Option ℚ)) (i : ℕ)
    (hi : i < l.length) :
    (rollingW w f l).getD i none =
      if i + 1 < w then none
      else match allSome ((l.take (i + 1)).reverse.take w) with
           | none => none
           | some vs => some (f vs) := by
  rw [rollingW, rollingAux_eq, List.getD_eq_getElem?_getD, List.getElem?_map,
    List.getElem?_range hi]
  simp only [Option.map_some', Option.getD_some, List.append_nil]
  have hplen : ((l.take (i + 1)).reverse).length = i + 1 := by
    simp only [List.length_reverse, List.length_take]
    omega
  rw [hplen]

lemma rollingW_max_getD (w : ℕ) (xs : List ℚ) (i : ℕ) (hi : i < xs.length) :
    (rollingW w (fun vs => (listMax vs).getD 0) (xs.map some)).getD i none =
      if i + 1 < w then none else some ((listMax (winAt xs w i)).getD 0) := by
  rw [rollingW_getD _ _ _ i (by simpa using hi)]
  have hcomm : ((xs.map some).take (i + 1)).reverse.take w = (winAt xs w i).map some := by
    simp only [winAt]
    rw [← List.map_take, ← List.map_reverse, ← List.map_take]
  rw [hcomm, allSome_map_some]

lemma ddList_length (xs : List ℚ) (w : ℕ) : (ddList xs w).length = xs.length := by
  rw [ddList]
  simp [List.length_zipWith, rollingW_length]

lemma ddList_getD (xs : List ℚ) (w i : ℕ) (hi : i < xs.length) :
    (ddList xs w).getD i none =
      if i + 1 < w then none
      else some (xs.getD i 0 / (listMax (winAt xs w i)).getD 0 - 1) := by
  have hblen : i < (rollingW w (fun vs => (listMax vs).getD 0) (xs.map some)).length := by
    rw [rollingW_length]
    simpa using hi
  rw [ddList, List.getD_eq_getElem?_getD, List.getElem?_zipWith,
    List.getElem?_eq_getElem hi, List.getElem?_eq_getElem hblen]
  simp only [Option.getD_some]
  rw [← List.getD_eq_getElem _ none hblen, rollingW_max_getD w xs i hi,
    ← List.getD_eq_getElem xs 0 hi]
  by_cases h : i + 1 < w
  · simp [h]
  · simp [h]

lemma winAt_length (xs : List ℚ) (w i : ℕ) (hi : i < xs.length) :
    (winAt xs w i).length = min w (i + 1) := by
  simp only [winAt, List.length_take, List.length_reverse]
  omega

lemma winAt_getD (xs : List ℚ) (w i k : ℕ) (hi : i < xs.length) (hk : k < min w (i + 1)) :
    (winAt xs w i).getD k 0 = xs.getD (i - k) 0 := by
  have h1 : k < (winAt xs w i).length := by
    rw [winAt_length xs w i hi]
    exact hk
  have htl : (List.take (i + 1) xs).length = i + 1 := by
    simp only [List.length_take]
    omega
  rw [List.getD_eq_getElem _ _ h1]
  simp only [winAt]
  rw [List.getElem_take, List.getElem_reverse, List.getElem_take, ← List.getD_eq_getElem xs 0]
  congr 1
  omega

lemma getD_mem_winAt (xs : List ℚ) (w i j : ℕ) (hi : i < xs.length)
    (hj1 : i + 1 - w ≤ j) (hj2 : j ≤ i) : xs.getD j 0 ∈ winAt xs w i := by
  have hk : i - j < min w (i + 1) := by omega
  have h1 : i - j < (winAt xs w i).length := by
    rw [winAt_length xs w i hi]
    exact hk
  have hval := winAt_getD xs w i (i - j) hi hk
  have hij : i - (i - j) = j := by omega
  rw [hij] at hval
  rw [← hval, List.getD_eq_getElem _ _ h1]
  exact List.getElem_mem h1

lemma mem_winAt_getD (xs : List ℚ) (w i : ℕ) (hi : i < xs.length) {a : ℚ}
    (ha : a ∈ winAt xs w i) : ∃ j, i + 1 - w ≤ j ∧ j ≤ i ∧ a = xs.getD j 0 := by
  obtain ⟨k, hk, hka⟩ := List.mem_iff_getElem.mp ha
  have hk2 : k < min w (i + 1) := by
    rw [← winAt_length xs w i hi]
    exact hk
  refine ⟨i - k, by omega, by omega, ?_⟩
  rw [← hka, ← List.getD_eq_getElem _ 0 hk, winAt_getD xs w i k hi hk2]

lemma mem_winAt_mem (xs : List ℚ) (w i : ℕ) {a : ℚ} (ha : a ∈ winAt xs w i) : a ∈ xs :=
  List.take_subset (i + 1) xs (List.mem_reverse.mp (List.take_subset w _ ha))

lemma self_mem_winAt (xs : List ℚ) (w i : ℕ) (hw : 1 ≤ w) (hi : i < xs.length) :
    xs.getD i 0 ∈ winAt xs w i :=
  getD_mem_winAt xs w i i hi (by omega) (le_refl i)

lemma winAt_ne_nil (xs : List ℚ) (w i : ℕ) (hw : 1 ≤ w) (hi : i < xs.length) :
    winAt xs w i ≠ [] := by
  intro h
  have := winAt_length xs w i hi
  rw [h] at this
  simp at this
  omega

lemma mem_dd (xs : List ℚ) (w : ℕ) (q : ℚ) :
    q ∈ (ddList xs w).reduceOption ↔
      ∃ i, i < xs.length ∧ w ≤ i + 1 ∧
        q = xs.getD i 0 / (listMax (winAt xs w i)).getD 0 - 1 := by
  rw [List.reduceOption_mem_iff]
  constructor
  · intro h
    obtain ⟨n, hn, he⟩ := List.mem_iff_getElem.mp h
    have hn' : n < xs.length := by
      rw [← ddList_length xs w]
      exact hn
    have hv := ddList_getD xs w n hn'
    rw [List.getD_eq_getElem _ none hn, he] at hv
    by_cases hcase : n + 1 < w
    · rw [if_pos hcase] at hv
      exact absurd hv (by simp)
    · rw [if_neg hcase] at hv
      exact ⟨n, hn', by omega, by injection hv⟩
  · rintro ⟨i, hi, hwi, rfl⟩
    have hi' : i < (ddList xs w).length := by
      rw [ddList_length xs w]
      exact hi
    have hv := ddList_getD xs w i hi
    rw [if_neg (by omega), List.getD_eq_getElem _ none hi'] at hv
    exact List.mem_iff_getElem.mpr ⟨i, hi', hv⟩

/-- C9 counterexample: `max_drawdown` is *not* ≤ 0 for every non-empty series
— a series shorter than the window yields NaN (none), for which the comparison
fails; and it can be exactly 0 on a series that is *not* non-decreasing over
the trailing window, as long as each full-window bar equals its own
trailing-window maximum (here `[5, 3, 6]` with `window = 3`). -/
theorem c9_counterexample :
    max_drawdown [(5 : ℚ)] 90 = none ∧
    max_drawdown [(5 : ℚ), 3, 6] 3 = some 0 ∧
    ¬ List.Chain' (· ≤ ·) [(5 : ℚ), 3, 6] := by
  refine ⟨?_, ?_, ?_⟩
  · norm_num [max_drawdown, rollingW, rollingAux, listMin, listMax, allSome,
      List.reduceOption]
  · norm_num [max_drawdown, rollingW, rollingAux, listMin, listMax, allSome,
      List.reduceOption]
  · rw [List.chain'_cons]
    norm_num

/-- C9 amended: for every series with at least `window` observations
(`window ≥ 1`) and positive prices, `max_drawdown` is defined and ≤ 0, and it
equals 0 exactly when every bar from position `window - 1` onward is ≥ every
bar of its trailing window; a non-empty series shorter than the window gives
the undefined marker instead (pandas' skip-NaN minimum of an all-NaN column).
-/
theorem c9_amended (xs : List ℚ) (w : ℕ) (hw : 1 ≤ w) (hlen : w ≤ xs.length)
    (hpos : ∀ x ∈ xs, 0 < x) :
    ∃ q, max_drawdown xs w = some q ∧ q ≤ 0 ∧
      (q = 0 ↔ ∀ i, i < xs.length → w ≤ i + 1 →
        ∀ j, i + 1 - w ≤ j → j ≤ i → xs.getD j 0 ≤ xs.getD i 0) := by
  have hne : (ddList xs w).reduceOption ≠ [] := by
    intro hnil
    have hmem : (xs.getD (w - 1) 0 / (listMax (winAt xs w (w - 1))).getD 0 - 1)
        ∈ (ddList xs w).reduceOption :=
      (mem_dd xs w _).mpr ⟨w - 1, by omega, by omega, rfl⟩
    rw [hnil] at hmem
    simp at hmem
  obtain ⟨m, hm⟩ := listMin_isSome hne
  obtain ⟨hmmem, hmle⟩ := listMin_spec hm
  have hmax : ∀ i, i < xs.length →
      ∃ M, listMax (winAt xs w i) = some M ∧ 0 < M ∧ xs.getD i 0 ≤ M := by
    intro i hi
    obtain ⟨M, hM⟩ := listMax_isSome (winAt_ne_nil xs w i hw hi)
    obtain ⟨hMmem, hMub⟩ := listMax_spec hM
    exact ⟨M, hM, hpos M (mem_winAt_mem xs w i hMmem),
      hMub _ (self_mem_winAt xs w i hw hi)⟩
  have hallnp : ∀ q ∈ (ddList xs w).reduceOption, q ≤ 0 := by
    intro q hq
    obtain ⟨i, hi, hwi, rfl⟩ := (mem_dd xs w q).mp hq
    obtain ⟨M, hM, hMpos, hxle⟩ := hmax i hi
    rw [hM]
    simp only [Option.getD_some]
    have hdiv : xs.getD i 0 / M ≤ 1 := (div_le_one hMpos).mpr hxle
    linarith
  refine ⟨m, by rw [max_drawdown_eq, hm], hallnp m hmmem, ?_, ?_⟩
  · intro hm0 i hi hwi j hj1 hj2
    have hzero : ∀ q ∈ (ddList xs w).reduceOption, q = 0 := by
      intro q hq
      have h1 := hallnp q hq
      have h2 := hmle q hq
      rw [hm0] at h2
      linarith
    obtain ⟨M, hM, hMpos, hxle⟩ := hmax i hi
    have hq0 := hzero _ ((mem_dd xs w _).mpr ⟨i, hi, hwi, rfl⟩)
    rw [hM] at hq0
    simp only [Option.getD_some] at hq0
    have hxi : xs.getD i 0 = M := by
      have hdiv : xs.getD i 0 / M = 1 := by linarith
      calc xs.getD i 0 = xs.getD i 0 / M * M := by
            rw [div_mul_cancel₀ _ (ne_of_gt hMpos)]
        _ = 1 * M := by rw [hdiv]
        _ = M := one_mul M
    obtain ⟨hMmem, hMub⟩ := listMax_spec hM
    have := hMub _ (getD_mem_winAt xs w i j hi hj1 hj2)
    rw [← hxi] at this
    exact this
  · intro hcond
    obtain ⟨i, hi, hwi, hmval⟩ := (mem_dd xs w m).mp hmmem
    obtain ⟨M, hM, hMpos, hxle⟩ := hmax i hi
    obtain ⟨hMmem, _⟩ := listMax_spec hM
    obtain ⟨j, hj1, hj2, hjv⟩ := mem_winAt_getD xs w i hi hMmem
    have hMle : M ≤ xs.getD i 0 := by
      rw [hjv]
      exact hcond i hi hwi j hj1 hj2
    have hMeq : M = xs.getD i 0 := le_antisymm hMle hxle
    rw [hmval, hM]
    simp only [Option.getD_some]
    rw [← hMeq, div_self (ne_of_gt hMpos)]
    ring

/-- Witness for C9 (amended) at the positive two-point series `[1, 2]` with
`window = 2`. -/
theorem c9_witness :
    ∃ q, max_drawdown [(1 : ℚ), 2] 2 = some q ∧ q ≤ 0 ∧
      (q = 0 ↔ ∀ i, i < [(1 : ℚ), 2].length → 2 ≤ i + 1 →
        ∀ j, i + 1 - 2 ≤ j → j ≤ i →
          [(1 : ℚ), 2].getD j 0 ≤ [(1 : ℚ), 2].getD i 0) :=
  c9_amended [(1 : ℚ), 2] 2 (by norm_num) (by norm_num)
    (by
      intro x hx
      rcases List.mem_cons.mp hx with rfl | hx
      · norm_num
      · rcases List.mem_cons.mp hx with rfl | hx
        · norm_num
        · simp at hx)

/-! ### Claim theorems: target count and top-N selection (C7) -/

lemma mem_insertDesc (key : α → ℚ) (x y : α) (l : List α) :
    y ∈ insertDesc key x l ↔ y = x ∨ y ∈ l := by
  induction l with
  | nil => simp [insertDesc]
  | cons z zs ih =>
    rw [insertDesc]
    by_cases h : key z ≤ key x
    · simp [h]
    · rw [if_neg h]
      simp only [List.mem_cons, ih]
      tauto

lemma mem_sortDesc (key : α → ℚ) (l : List α) (y : α) :
    y ∈ sortDesc key l ↔ y ∈ l := by
  induction l with
  | nil => simp [sortDesc]
  | cons x xs ih =>
    rw [sortDesc, mem_insertDesc]
    simp [ih]

lemma pairwise_insertDesc (key : α → ℚ) (x : α) {l : List α}
    (h : l.Pairwise (fun a b => key b ≤ key a)) :
    (insertDesc key x l).Pairwise (fun a b => key b ≤ key a) := by
  induction l with
  | nil => simp [insertDesc]
  | cons z zs ih =>
    rw [List.pairwise_cons] at h
    rw [insertDesc]
    by_cases hz : key z ≤ key x
    · rw [if_pos hz, List.pairwise_cons]
      constructor
      · intro b hb
        rcases List.mem_cons.mp hb with rfl | hb
        · exact hz
        · exact le_trans (h.1 b hb) hz
      · exact List.pairwise_cons.mpr h
    · rw [if_neg hz, List.pairwise_cons]
      constructor
      · intro b hb
        rcases (mem_insertDesc key x b zs).mp hb with rfl | hb
        · exact le_of_lt (lt_of_not_le hz)
        · exact h.1 b hb
      · exact ih h.2

lemma pairwise_sortDesc (key : α → ℚ) (l : List α) :
    (sortDesc key l).Pairwise (fun a b => key b ≤ key a) := by
  induction l with
  | nil => simp [sortDesc]
  | cons x xs ih =>
    rw [sortDesc]
    exact pairwise_insertDesc key x ih

lemma selection_dominance (key : α → ℚ) (l : List α) (n : ℕ) :
    ∀ r ∈ (sortDesc key l).take n, ∀ s ∈ l,
      s ∉ (sortDesc key l).take n → key s ≤ key r := by
  intro r hr s hs hsn
  have hp := pairwise_sortDesc key l
  have hsplit : sortDesc key l = (sortDesc key l).take n ++ (sortDesc key l).drop n :=
    (List.take_append_drop n (sortDesc key l)).symm
  rw [hsplit, List.pairwise_append] at hp
  have hsmem : s ∈ (sortDesc key l).take n ++ (sortDesc key l).drop n := by
    rw [List.take_append_drop]
    exact (mem_sortDesc key l s).mpr hs
  rcases List.mem_append.mp hsmem with h | h
  · exact absurd h hsn
  · exact hp.2.2 r hr s h

/-- C7: the base target count is 3/5/8 for concentrated/balanced/full; low
risk adds one with floor 4, high risk subtracts one with floor 3 (any other
tier leaves the base); and the selector's top-N-by-descending-score choice
makes every selected row's score ≥ every excluded surviving row's score. -/
theorem c7_theorem :
    (∀ pool : List SRow,
      picks_by_preferences "low" "concentrated" pool = 4 ∧
      picks_by_preferences "low" "balanced" pool = 6 ∧
      picks_by_preferences "low" "full" pool = 9 ∧
      picks_by_preferences "high" "concentrated" pool = 3 ∧
      picks_by_preferences "high" "balanced" pool = 4 ∧
      picks_by_preferences "high" "full" pool = 7) ∧
    (∀ (risk : String) (pool : List SRow), risk ≠ "low" → risk ≠ "high" →
      picks_by_preferences risk "concentrated" pool = 3 ∧
      picks_by_preferences risk "balanced" pool = 5 ∧
      picks_by_preferences risk "full" pool = 8) ∧
    (∀ (scored : List SRow) (n : ℕ),
      ∀ r ∈ (sortDesc (fun t => t.score) scored).take n, ∀ s ∈ scored,
        s ∉ (sortDesc (fun t => t.score) scored).take n → s.score ≤ r.score) := by
  refine ⟨?_, ?_, ?_⟩
  · intro pool
    refine ⟨?_, ?_, ?_, ?_, ?_, ?_⟩ <;> simp only [picks_by_preferences] <;> decide
  · intro risk pool h1 h2
    refine ⟨?_, ?_, ?_⟩ <;> simp only [picks_by_preferences, if_neg h1, if_neg h2] <;> decide
  · intro scored n r hr s hs hsn
    exact selection_dominance (fun t => t.score) scored n r hr s hs hsn

/-- A scored row with all feature fields zeroed, used to instantiate the
selection theorems at concrete inputs. -/
def sampleSRow (t : String) (sc : ℚ) : SRow :=
  ⟨t, 0, 0, 0, 0, false, false, 0, 0, 0, 0, 0, 0, 0, 0, 0, 0, 0, 0, sc⟩

/-- Witness for C7 at a concrete pool: `medium`/`balanced` targets 5, and with
scores A↦2, B↦3, C↦1 the top-2 selection `[B, A]` dominates the excluded
row C. -/
theorem c7_witness :
    picks_by_preferences "medium" "balanced" [] = 5 ∧
    (sampleSRow "C" 1).score ≤ (sampleSRow "B" 3).score := by
  constructor
  · exact (c7_theorem.2.1 "medium" [] (by decide) (by decide)).2.1
  · refine c7_theorem.2.2 [sampleSRow "A" 2, sampleSRow "B" 3, sampleSRow "C" 1] 2
      (sampleSRow "B" 3) ?_ (sampleSRow "C" 1) (by simp) ?_
    · norm_num [sortDesc, insertDesc, sampleSRow]
    · norm_num [sortDesc, insertDesc, sampleSRow]

/-! ### Claim theorems: the weight invariant (C2) -/

lemma rhe_abs_le (q : ℚ) : |(rhe q : ℚ) - q| ≤ 1 / 2 := by
  rw [rhe]
  by_cases h : Int.fract q = 1 / 2
  · rw [if_pos h]
    have hd : q - ⌊q⌋ = 1 / 2 := by
      rw [Int.fract] at h
      exact h
    rcases Int.even_or_odd ⌊q⌋ with ⟨j, hj⟩ | ⟨j, hj⟩
    · have hq2 : q / 2 = (j : ℚ) + 1 / 4 := by
        have : q = (⌊q⌋ : ℚ) + 1 / 2 := by linarith
        rw [this, hj]
        push_cast
        ring
      have hr : round (q / 2) = j := by
        rw [hq2, round_eq]
        rw [show (j : ℚ) + 1 / 4 + 1 / 2 = 3 / 4 + (j : ℚ) by ring, Int.floor_add_int]
        norm_num
      rw [hr]
      have : (2 * j : ℚ) - q = -(1 / 2) := by
        have : q = (⌊q⌋ : ℚ) + 1 / 2 := by linarith
        rw [this, hj]
        push_cast
        ring
      rw [show ((2 * j : ℤ) : ℚ) = (2 * j : ℚ) by push_cast; ring, this]
      norm_num [abs_le]
    · have hq2 : q / 2 = (j : ℚ) + 3 / 4 := by
        have : q = (⌊q⌋ : ℚ) + 1 / 2 := by linarith
        rw [this, hj]
        push_cast
        ring
      have hr : round (q / 2) = j + 1 := by
        rw [hq2, round_eq]
        rw [show (j : ℚ) + 3 / 4 + 1 / 2 = 5 / 4 + (j : ℚ) by ring, Int.floor_add_int]
        norm_num
        omega
      rw [hr]
      have : (2 * (j + 1) : ℚ) - q = 1 / 2 := by
        have : q = (⌊q⌋ : ℚ) + 1 / 2 := by linarith
        rw [this, hj]
        push_cast
        ring
      rw [show ((2 * (j + 1) : ℤ) : ℚ) = (2 * (j + 1) : ℚ) by push_cast; ring, this]
      norm_num [abs_le]
  · rw [if_neg h, round_eq, abs_le]
    constructor <;>
      linarith [Int.floor_le (q + 1 / 2), Int.lt_floor_add_one (q + 1 / 2)]

lemma rhe_nonneg {q : ℚ} (hq : 0 ≤ q) : 0 ≤ rhe q := by
  rw [rhe]
  by_cases h : Int.fract q = 1 / 2
  · rw [if_pos h]
    have : 0 ≤ round (q / 2) := by
      rw [round_eq]
      exact Int.floor_nonneg.mpr (by linarith)
    omega
  · rw [if_neg h, round_eq]
    exact Int.floor_nonneg.mpr (by linarith)

lemma round2_nonneg {q : ℚ} (hq : 0 ≤ q) : 0 ≤ round2 q := by
  rw [round2]
  have h1 : (0 : ℚ) ≤ (rhe (q * 100) : ℚ) := by
    exact_mod_cast rhe_nonneg (by positivity)
  positivity

lemma round2_abs (q : ℚ) : |round2 q - q| ≤ 1 / 200 := by
  rw [round2]
  have h := rhe_abs_le (q * 100)
  have heq : (rhe (q * 100) : ℚ) / 100 - q = ((rhe (q * 100) : ℚ) - q * 100) / 100 := by
    ring
  rw [heq, abs_div]
  rw [show |(100 : ℚ)| = 100 by norm_num]
  linarith

lemma sum_map_round2_close (l : List ℚ) :
    |(l.map round2).sum - l.sum| ≤ (l.length : ℚ) / 200 := by
  induction l with
  | nil => simp
  | cons x xs ih =>
    simp only [List.map_cons, List.sum_cons, List.length_cons]
    have h1 := round2_abs x
    have habs : |round2 x + (xs.map round2).sum - (x + xs.sum)| ≤
        |round2 x - x| + |(xs.map round2).sum - xs.sum| := by
      have : round2 x + (xs.map round2).sum - (x + xs.sum) =
          (round2 x - x) + ((xs.map round2).sum - xs.sum) := by ring
      rw [this]
      exact abs_add _ _
    have hc : ((xs.length + 1 : ℕ) : ℚ) / 200 = 1 / 200 + (xs.length : ℚ) / 200 := by
      push_cast
      ring
    rw [hc]
    linarith

lemma sum_map_div_mul (l : List ℚ) (T c : ℚ) :
    (l.map fun x => x / T * c).sum = l.sum / T * c := by
  induction l with
  | nil => simp
  | cons x xs ih =>
    simp only [List.map_cons, List.sum_cons, ih]
    ring

lemma shifted_pos (r : SRow) (m : ℚ) : 0 < max epsW (r.score - m + epsW) :=
  lt_of_lt_of_le (by norm_num [epsW]) (le_max_left _ _)

lemma total_pos (top : List SRow) (m : ℚ) (hne : top ≠ []) :
    0 < (top.map fun r => max epsW (r.score - m + epsW)).sum := by
  cases top with
  | nil => exact absurd rfl hne
  | cons r rs =>
    simp only [List.map_cons, List.sum_cons]
    have h2 : 0 ≤ (rs.map fun r' => max epsW (r'.score - m + epsW)).sum := by
      refine List.sum_nonneg ?_
      intro x hx
      obtain ⟨r', _, rfl⟩ := List.mem_map.mp hx
      exact le_of_lt (shifted_pos r' m)
    linarith [shifted_pos r m]

lemma allocations_eq (top : List SRow) :
    allocations top = top.map (fun r =>
      { ticker := r.ticker
        allocation_pct := round2
          ((max epsW (r.score - (listMin (top.map fun t => t.score)).getD 0 + epsW)) /
            (top.map fun t =>
              max epsW (t.score - (listMin (top.map fun t2 => t2.score)).getD 0 + epsW)).sum
            * 100)
        ai_score := round3 r.score }) := by
  simp only [allocations]
  exact zipWith_map_right_self _ _ top

/-- C2 counterexample: for the selected set `{A ↦ score 0, B ↦ score 1}` the
allocator rounds A's percentage (`100·ε/(1+2ε) ≈ 0.0001`) down to `0.0`, so
not every `allocation_pct` is strictly positive. -/
theorem c2_counterexample :
    (allocations [sampleSRow "A" 0, sampleSRow "B" 1]).map
        (fun a => a.allocation_pct) = [0, 100] ∧
    ¬ (∀ a ∈ allocations [sampleSRow "A" 0, sampleSRow "B" 1],
        0 < a.allocation_pct) := by
  have h : (allocations [sampleSRow "A" 0, sampleSRow "B" 1]).map
      (fun a => a.allocation_pct) = [0, 100] := by
    rw [allocations_eq]
    have e1 : round2 (epsW / (epsW + (1 + epsW)) * 100) = 0 := by
      norm_num [epsW, round2, rhe, round_eq, Int.fract]
    have e2 : round2 ((1 + epsW) / (epsW + (1 + epsW)) * 100) = 100 := by
      norm_num [epsW, round2, rhe, round_eq, Int.fract]
    norm_num [sampleSRow, listMin, epsW] at e1 e2 ⊢
    norm_num [e1, e2]
  refine ⟨h, fun hall => ?_⟩
  have hmem : (0 : ℚ) ∈ (allocations [sampleSRow "A" 0, sampleSRow "B" 1]).map
      (fun a => a.allocation_pct) := by
    rw [h]
    simp
  obtain ⟨a, ha, hp⟩ := List.mem_map.mp hmem
  have := hall a ha
  rw [hp] at this
  exact lt_irrefl 0 this

/-- C2 amended: for every non-empty selected set with distinct tickers, the
allocation preserves the tickers (hence no duplicates), every
`allocation_pct` is ≥ 0 (it can round to exactly `0.0` for the minimum-score
asset, so strict positivity fails), and the percentages sum to 100 within
`±0.005·n` for `n` selected assets — the pre-rounding weights are strictly
positive and sum to exactly 100, but 2-decimal rounding moves each entry by up
to 0.005, so the `±0.01` tolerance is guaranteed only for `n ≤ 2`. -/
theorem c2_amended (top : List SRow) (hne : top ≠ [])
    (hnd : (top.map fun r => r.ticker).Nodup) :
    ((allocations top).map fun a => a.ticker) = (top.map fun r => r.ticker) ∧
    (∀ a ∈ allocations top, 0 ≤ a.allocation_pct) ∧
    |((allocations top).map fun a => a.allocation_pct).sum - 100| ≤
      (top.length : ℚ) / 200 ∧
    ((allocations top).map fun a => a.ticker).Nodup := by
  have heq := allocations_eq top
  have htick : ((allocations top).map fun a => a.ticker) = (top.map fun r => r.ticker) := by
    rw [heq, List.map_map]
    rfl
  have htotal := total_pos top ((listMin (top.map fun t => t.score)).getD 0) hne
  refine ⟨htick, ?_, ?_, by rw [htick]; exact hnd⟩
  · intro a ha
    rw [heq] at ha
    obtain ⟨r, _, rfl⟩ := List.mem_map.mp ha
    refine round2_nonneg (le_of_lt ?_)
    have hs := shifted_pos r ((listMin (top.map fun t => t.score)).getD 0)
    exact mul_pos (div_pos hs htotal) (by norm_num)
  · have hpct : ((allocations top).map fun a => a.allocation_pct) =
        ((top.map fun t =>
            max epsW (t.score - (listMin (top.map fun t2 => t2.score)).getD 0 + epsW)).map
          fun x => round2 (x /
            (top.map fun t =>
              max epsW (t.score - (listMin (top.map fun t2 => t2.score)).getD 0 + epsW)).sum
            * 100)) := by
      rw [heq, List.map_map, List.map_map]
      rfl
    have hunrounded : ((top.map fun t =>
        max epsW (t.score - (listMin (top.map fun t2 => t2.score)).getD 0 + epsW)).map
          fun x => x /
            (top.map fun t =>
              max epsW (t.score - (listMin (top.map fun t2 => t2.score)).getD 0 + epsW)).sum
            * 100).sum = 100 := by
      rw [sum_map_div_mul, div_self (ne_of_gt htotal), one_mul]
    have hclose := sum_map_round2_close ((top.map fun t =>
        max epsW (t.score - (listMin (top.map fun t2 => t2.score)).getD 0 + epsW)).map
          fun x => x /
            (top.map fun t =>
              max epsW (t.score - (listMin (top.map fun t2 => t2.score)).getD 0 + epsW)).sum
            * 100)
    rw [hunrounded] at hclose
    rw [hpct]
    simp only [List.map_map, Function.comp, List.length_map] at hclose
    simpa using hclose

/-- Witness for C2 (amended) at the two-asset selected set
`{A ↦ score 1, B ↦ score 2}`. -/
theorem c2_witness :
    ((allocations [sampleSRow "A" 1, sampleSRow "B" 2]).map fun a => a.ticker) =
      ([sampleSRow "A" 1, sampleSRow "B" 2].map fun r => r.ticker) ∧
    (∀ a ∈ allocations [sampleSRow "A" 1, sampleSRow "B" 2], 0 ≤ a.allocation_pct) ∧
    |((allocations [sampleSRow "A" 1, sampleSRow "B" 2]).map
        fun a => a.allocation_pct).sum - 100| ≤
      (([sampleSRow "A" 1, sampleSRow "B" 2] : List SRow).length : ℚ) / 200 ∧
    ((allocations [sampleSRow "A" 1, sampleSRow "B" 2]).map fun a => a.ticker).Nodup :=
  c2_amended [sampleSRow "A" 1, sampleSRow "B" 2] (by simp)
    (by simp [sampleSRow])

/-! ### Claim theorems: NaN rows and z-scoring (C5) -/

lemma scoreRows_mem {zt zm zr zq zv zd zs : List (Option ℚ)} :
    ∀ {i : ℕ} {rows : List IndRow} {z : ScoredRow},
      z ∈ scoreRows zt zm zr zq zv zd zs i rows → z.toIndRow ∈ rows := by
  intro i rows
  induction rows generalizing i with
  | nil =>
    intro z h
    simp [scoreRows] at h
  | cons r rs ih =>
    intro z h
    rw [scoreRows] at h
    rcases List.mem_cons.mp h with rfl | h
    · simp
    · exact List.mem_cons.mpr (Or.inr (ih h))

lemma scoreRows_map_ticker (zt zm zr zq zv zd zs : List (Option ℚ)) :
    ∀ (i : ℕ) (rows : List IndRow),
      (scoreRows zt zm zr zq zv zd zs i rows).map (fun z => z.ticker) =
        rows.map (fun r => r.ticker)
  | _, [] => rfl
  | i, r :: rs => by
    rw [scoreRows, List.map_cons, List.map_cons,
      scoreRows_map_ticker zt zm zr zq zv zd zs (i + 1) rs]

lemma build_scores_map_ticker (sq : ℚ → ℚ) (rows : List IndRow) :
    (build_scores sq rows).map (fun z => z.ticker) = rows.map (fun r => r.ticker) := by
  simp only [build_scores]
  exact scoreRows_map_ticker _ _ _ _ _ _ _ 0 rows

lemma obind_some {x : Option α} {f : α → Option β} {b : β} (h : x >>= f = some b) :
    ∃ a, x = some a ∧ f a = some b := by
  cases x with
  | none => simp at h
  | some a => exact ⟨a, rfl, by simpa using h⟩

lemma dropna_mem {rows : List ScoredRow} {s : SRow} (h : s ∈ dropna rows) :
    ∃ z ∈ rows, z.ticker = s.ticker ∧ z.rsi = some s.rsi ∧ z.vol30 = some s.vol30 ∧
      z.dd90 = some s.dd90 ∧ z.mom20 = some s.mom20 ∧
      z.trend_slope = some s.trend_slope ∧ z.recent_strength = some s.recent_strength := by
  rw [dropna, List.mem_filterMap] at h
  obtain ⟨z, hz, he⟩ := h
  refine ⟨z, hz, ?_⟩
  obtain ⟨a1, h1, he⟩ := obind_some he
  obtain ⟨a2, h2, he⟩ := obind_some he
  obtain ⟨a3, h3, he⟩ := obind_some he
  obtain ⟨a4, h4, he⟩ := obind_some he
  obtain ⟨a5, h5, he⟩ := obind_some he
  obtain ⟨a6, h6, he⟩ := obind_some he
  obtain ⟨a7, h7, he⟩ := obind_some he
  obtain ⟨a8, h8, he⟩ := obind_some he
  obtain ⟨a9, h9, he⟩ := obind_some he
  obtain ⟨a10, h10, he⟩ := obind_some he
  obtain ⟨a11, h11, he⟩ := obind_some he
  obtain ⟨a12, h12, he⟩ := obind_some he
  obtain ⟨a13, h13, he⟩ := obind_some he
  obtain ⟨a14, h14, he⟩ := obind_some he
  have heq := Option.some.inj he
  subst heq
  exact ⟨rfl, h1, h2, h3, h4, h5, h6⟩

/-- One candidate row for the C5 scenario: all features shared except the
trend slope and the (possibly NaN) recent-strength value. -/
def c5row (t : String) (ts rst : Option ℚ) : IndRow :=
  ⟨t, 1, some 55, 0, 0, false, false, some 1, some (-(1 / 10)), some 1, ts, rst⟩

lemma sqrtQ0_zero : sqrtQ0 0 = 0 := by
  rw [sqrtQ0]
  rw [show (0 : ℚ).num = 0 from rfl, show (0 : ℚ).den = 1 from rfl,
    show Int.sqrt 0 = 0 by rw [show (0 : ℤ) = 0 * 0 by norm_num, Int.sqrt_eq]; rfl,
    Nat.sqrt_one]
  norm_num

lemma sqrtQ0_nine : sqrtQ0 9 = 3 := by
  rw [sqrtQ0]
  rw [show (9 : ℚ).num = 9 from rfl, show (9 : ℚ).den = 1 from rfl,
    show Int.sqrt 9 = 3 by rw [show (9 : ℤ) = 3 * 3 by norm_num, Int.sqrt_eq]; rfl,
    Nat.sqrt_one]
  norm_num

lemma reduceOption_replicate_some (c : ℚ) :
    ∀ n, (List.replicate n (some c)).reduceOption = List.replicate n c
  | 0 => rfl
  | n + 1 => by
    rw [List.replicate_succ, List.replicate_succ, List.reduceOption_cons_of_some,
      reduceOption_replicate_some c n]

lemma zscoreCol_const (sq : ℚ → ℚ) (hsq : sq 0 = 0) (c : ℚ) (n : ℕ) (h2 : 2 ≤ n) :
    zscoreCol sq (List.replicate n (some c)) = List.replicate n (some 0) := by
  have hro := reduceOption_replicate_some c n
  have hmq : meanQ (List.replicate n c) = c := by
    rw [meanQ, List.sum_replicate, List.length_replicate, nsmul_eq_mul,
      mul_div_cancel_left₀ _ (by positivity : ((n : ℚ)) ≠ 0)]
  have hmean : colMean (List.replicate n (some c)) = some c := by
    simp only [colMean, hro, List.length_replicate]
    rw [if_neg (by omega), hmq]
  have hvar : sampleVar (List.replicate n c) = 0 := by
    rw [sampleVar, hmq]
    simp [List.map_replicate, List.sum_replicate]
  have hstd : colStd sq (List.replicate n (some c)) = some 0 := by
    simp only [colStd, hro, List.length_replicate]
    rw [if_neg (by omega), hvar, hsq]
  simp only [zscoreCol, hmean, hstd, List.map_replicate]
  norm_num

lemma c5_zscore_trend : zscoreCol sqrtQ0 [some (0 : ℚ), some 0, some 0, some 6] =
    [some (-(3 / 2) / (3 + epsZ)), some (-(3 / 2) / (3 + epsZ)),
     some (-(3 / 2) / (3 + epsZ)), some ((9 / 2) / (3 + epsZ))] := by
  have hro : ([some (0 : ℚ), some 0, some 0, some 6]).reduceOption = [0, 0, 0, 6] := rfl
  have hmean : colMean [some (0 : ℚ), some 0, some 0, some 6] = some (3 / 2) := by
    simp only [colMean, hro]
    norm_num [meanQ]
  have hvar : sampleVar [(0 : ℚ), 0, 0, 6] = 9 := by
    rw [sampleVar]
    norm_num [meanQ]
  have hstd : colStd sqrtQ0 [some (0 : ℚ), some 0, some 0, some 6] = some 3 := by
    simp only [colStd, hro]
    norm_num [hvar, sqrtQ0_nine]
  simp only [zscoreCol, hmean, hstd]
  norm_num

lemma c5_zscore_rst : zscoreCol sqrtQ0 [some (1 : ℚ), some 1, some 1, none] =
    [some 0, some 0, some 0, none] := by
  have hro : ([some (1 : ℚ), some 1, some 1, none]).reduceOption = [1, 1, 1] := rfl
  have hmean : colMean [some (1 : ℚ), some 1, some 1, none] = some 1 := by
    simp only [colMean, hro]
    norm_num [meanQ]
  have hvar : sampleVar [(1 : ℚ), 1, 1] = 0 := by
    rw [sampleVar]
    norm_num [meanQ]
  have hstd : colStd sqrtQ0 [some (1 : ℚ), some 1, some 1, none] = some 0 := by
    simp only [colStd, hro]
    norm_num [hvar, sqrtQ0_zero]
  simp only [zscoreCol, hmean, hstd]
  norm_num

lemma neg_map_zero_col (n : ℕ) :
    (List.replicate n (some (0 : ℚ))).map (fun z? => z?.map (- ·)) =
      List.replicate n (some 0) := by
  simp [List.map_replicate]

/-- The four candidate rows of the C5 scenario. -/
def c5rows4 : List IndRow :=
  [c5row "A" (some 0) (some 1), c5row "B" (some 0) (some 1),
   c5row "C" (some 0) (some 1), c5row "D" (some 6) none]

/-- The NaN-free candidate set of the C5 scenario. -/
def c5rows3 : List IndRow :=
  [c5row "A" (some 0) (some 1), c5row "B" (some 0) (some 1),
   c5row "C" (some 0) (some 1)]

/-- The scored-and-dropped output of the four-row C5 scenario. -/
lemma c5_eval4 : dropna (build_scores sqrtQ0 c5rows4) =
    [⟨"A", 1, 55, 0, 0, false, false, 1, -(1 / 10), 1, 0, 1,
        -(3 / 2) / (3 + epsZ), 0, 0, 0, 0, 0, 0, wTrend * (-(3 / 2) / (3 + epsZ))⟩,
     ⟨"B", 1, 55, 0, 0, false, false, 1, -(1 / 10), 1, 0, 1,
        -(3 / 2) / (3 + epsZ), 0, 0, 0, 0, 0, 0, wTrend * (-(3 / 2) / (3 + epsZ))⟩,
     ⟨"C", 1, 55, 0, 0, false, false, 1, -(1 / 10), 1, 0, 1,
        -(3 / 2) / (3 + epsZ), 0, 0, 0, 0, 0, 0, wTrend * (-(3 / 2) / (3 + epsZ))⟩] := by
  have h1 : build_scores sqrtQ0 c5rows4 =
      scoreRows (zscoreCol sqrtQ0 [some 0, some 0, some 0, some 6])
        (zscoreCol sqrtQ0 (List.replicate 4 (some 1)))
        (zscoreCol sqrtQ0 (List.replicate 4 (some 1)))
        (zscoreCol sqrtQ0 (List.replicate 4 (some 0)))
        ((zscoreCol sqrtQ0 (List.replicate 4 (some 1))).map (fun z? => z?.map (- ·)))
        ((zscoreCol sqrtQ0 (List.replicate 4 (some (1 / 10)))).map
          (fun z? => z?.map (- ·)))
        (zscoreCol sqrtQ0 [some 1, some 1, some 1, none]) 0 c5rows4 := by
    simp only [build_scores, c5rows4]
    norm_num [c5row, List.replicate_succ]
  have h2 : scoreRows (zscoreCol sqrtQ0 [some 0, some 0, some 0, some 6])
        (zscoreCol sqrtQ0 (List.replicate 4 (some 1)))
        (zscoreCol sqrtQ0 (List.replicate 4 (some 1)))
        (zscoreCol sqrtQ0 (List.replicate 4 (some 0)))
        ((zscoreCol sqrtQ0 (List.replicate 4 (some 1))).map (fun z? => z?.map (- ·)))
        ((zscoreCol sqrtQ0 (List.replicate 4 (some (1 / 10)))).map
          (fun z? => z?.map (- ·)))
        (zscoreCol sqrtQ0 [some 1, some 1, some 1, none]) 0 c5rows4 =
      scoreRows [some (-(3 / 2) / (3 + epsZ)), some (-(3 / 2) / (3 + epsZ)),
          some (-(3 / 2) / (3 + epsZ)), some ((9 / 2) / (3 + epsZ))]
        [some 0, some 0, some 0, some 0] [some 0, some 0, some 0, some 0]
        [some 0, some 0, some 0, some 0] [some 0, some 0, some 0, some 0]
        [some 0, some 0, some 0, some 0] [some 0, some 0, some 0, none] 0 c5rows4 := by
    rw [c5_zscore_trend, c5_zscore_rst,
      zscoreCol_const sqrtQ0 sqrtQ0_zero 1 4 (by norm_num),
      zscoreCol_const sqrtQ0 sqrtQ0_zero 0 4 (by norm_num),
      zscoreCol_const sqrtQ0 sqrtQ0_zero (1 / 10) 4 (by norm_num),
      neg_map_zero_col]
    rfl
  have h3 : scoreRows [some (-(3 / 2) / (3 + epsZ)), some (-(3 / 2) / (3 + epsZ)),
          some (-(3 / 2) / (3 + epsZ)), some ((9 / 2) / (3 + epsZ))]
        [some 0, some 0, some 0, some 0] [some 0, some 0, some 0, some 0]
        [some 0, some 0, some 0, some 0] [some 0, some 0, some 0, some 0]
        [some 0, some 0, some 0, some 0] [some 0, some 0, some 0, none] 0 c5rows4 =
      [⟨⟨"A", 1, some 55, 0, 0, false, false, some 1, some (-(1 / 10)), some 1,
          some 0, some 1⟩,
        some (-(3 / 2) / (3 + epsZ)), some 0, some 0, some 0, some 0, some 0, some 0,
        some (wTrend * (-(3 / 2) / (3 + epsZ)))⟩,
       ⟨⟨"B", 1, some 55, 0, 0, false, false, some 1, some (-(1 / 10)), some 1,
          some 0, some 1⟩,
        some (-(3 / 2) / (3 + epsZ)), some 0, some 0, some 0, some 0, some 0, some 0,
        some (wTrend * (-(3 / 2) / (3 + epsZ)))⟩,
       ⟨⟨"C", 1, some 55, 0, 0, false, false, some 1, some (-(1 / 10)), some 1,
          some 0, some 1⟩,
        some (-(3 / 2) / (3 + epsZ)), some 0, some 0, some 0, some 0, some 0, some 0,
        some (wTrend * (-(3 / 2) / (3 + epsZ)))⟩,
       ⟨⟨"D", 1, some 55, 0, 0, false, false, some 1, some (-(1 / 10)), some 1,
          some 6, none⟩,
        some ((9 / 2) / (3 + epsZ)), some 0, some 0, some 0, some 0, some 0, none,
        none⟩] := by
    norm_num [scoreRows, c5rows4, c5row, wTrend, wMom, wRsiQ, wMacdQ, wLowVol,
      wLowDD, wRStrength]
  rw [h1, h2, h3]
  rfl

/-- The scored-and-dropped output of the NaN-free three-row C5 scenario. -/
lemma c5_eval3 : dropna (build_scores sqrtQ0 c5rows3) =
    [⟨"A", 1, 55, 0, 0, false, false, 1, -(1 / 10), 1, 0, 1, 0, 0, 0, 0, 0, 0, 0, 0⟩,
     ⟨"B", 1, 55, 0, 0, false, false, 1, -(1 / 10), 1, 0, 1, 0, 0, 0, 0, 0, 0, 0, 0⟩,
     ⟨"C", 1, 55, 0, 0, false, false, 1, -(1 / 10), 1, 0, 1, 0, 0, 0, 0, 0, 0, 0, 0⟩] := by
  have h1 : build_scores sqrtQ0 c5rows3 =
      scoreRows (zscoreCol sqrtQ0 (List.replicate 3 (some 0)))
        (zscoreCol sqrtQ0 (List.replicate 3 (some 1)))
        (zscoreCol sqrtQ0 (List.replicate 3 (some 1)))
        (zscoreCol sqrtQ0 (List.replicate 3 (some 0)))
        ((zscoreCol sqrtQ0 (List.replicate 3 (some 1))).map (fun z? => z?.map (- ·)))
        ((zscoreCol sqrtQ0 (List.replicate 3 (some (1 / 10)))).map
          (fun z? => z?.map (- ·)))
        (zscoreCol sqrtQ0 (List.replicate 3 (some 1))) 0 c5rows3 := by
    simp only [build_scores, c5rows3]
    norm_num [c5row, List.replicate_succ]
  have h2 : scoreRows (zscoreCol sqrtQ0 (List.replicate 3 (some 0)))
        (zscoreCol sqrtQ0 (List.replicate 3 (some 1)))
        (zscoreCol sqrtQ0 (List.replicate 3 (some 1)))
        (zscoreCol sqrtQ0 (List.replicate 3 (some 0)))
        ((zscoreCol sqrtQ0 (List.replicate 3 (some 1))).map (fun z? => z?.map (- ·)))
        ((zscoreCol sqrtQ0 (List.replicate 3 (some (1 / 10)))).map
          (fun z? => z?.map (- ·)))
        (zscoreCol sqrtQ0 (List.replicate 3 (some 1))) 0 c5rows3 =
      scoreRows [some 0, some 0, some 0] [some 0, some 0, some 0]
        [some 0, some 0, some 0] [some 0, some 0, some 0] [some 0, some 0, some 0]
        [some 0, some 0, some 0] [some 0, some 0, some 0] 0 c5rows3 := by
    rw [zscoreCol_const sqrtQ0 sqrtQ0_zero 1 3 (by norm_num),
      zscoreCol_const sqrtQ0 sqrtQ0_zero 0 3 (by norm_num),
      zscoreCol_const sqrtQ0 sqrtQ0_zero (1 / 10) 3 (by norm_num),
      neg_map_zero_col]
    rfl
  have h3 : scoreRows [some (0 : ℚ), some 0, some 0] [some 0, some 0, some 0]
        [some 0, some 0, some 0] [some 0, some 0, some 0] [some 0, some 0, some 0]
        [some 0, some 0, some 0] [some 0, some 0, some 0] 0 c5rows3 =
      [⟨⟨"A", 1, some 55, 0, 0, false, false, some 1, some (-(1 / 10)), some 1,
          some 0, some 1⟩,
        some 0, some 0, some 0, some 0, some 0, some 0, some 0, some 0⟩,
       ⟨⟨"B", 1, some 55, 0, 0, false, false, some 1, some (-(1 / 10)), some 1,
          some 0, some 1⟩,
        some 0, some 0, some 0, some 0, some 0, some 0, some 0, some 0⟩,
       ⟨⟨"C", 1, some 55, 0, 0, false, false, some 1, some (-(1 / 10)), some 1,
          some 0, some 1⟩,
        some 0, some 0, some 0, some 0, some 0, some 0, some 0, some 0⟩] := by
    norm_num [scoreRows, c5rows3, c5row, wTrend, wMom, wRsiQ, wMacdQ, wLowVol,
      wLowDD, wRStrength]
  rw [h1, h2, h3]
  rfl

/-- C5 counterexample: row D carries a NaN `recent_strength` (a feature with
non-zero weight) but a defined extreme `trend_slope`; it is dropped from the
output, yet its trend value has entered the trend column's mean/std, so the
surviving row A's trend z-score is `-(3/2)/(3+1e-9)` instead of the `0` it
would be had D been excluded before the statistics (the run on the NaN-free
candidate set). -/
theorem c5_counterexample :
    ((dropna (build_scores sqrtQ0 c5rows4)).find?
      (fun r => r.ticker == "A")).map (fun r => r.z_trend) =
        some (-(3 / 2) / (3 + epsZ)) ∧
    ((dropna (build_scores sqrtQ0 c5rows3)).find?
      (fun r => r.ticker == "A")).map (fun r => r.z_trend) = some 0 ∧
    (-(3 / 2) / (3 + epsZ) : ℚ) ≠ 0 := by
  rw [c5_eval4, c5_eval3]
  refine ⟨by rfl, by rfl, by norm_num [epsZ]⟩

/-- C5 amended: a candidate row with a NaN value in a weighted feature never
appears in the scored output — its combined score is NaN and `dropna` removes
it — and every surviving row originates from a candidate whose weighted
features were all defined; but such a row is *not* excluded before the
per-feature means and standard deviations are computed: its non-NaN features
enter the other columns' statistics and shift surviving rows' z-scores. -/
theorem c5_amended (sq : ℚ → ℚ) (rows : List IndRow) (s : SRow)
    (hs : s ∈ dropna (build_scores sq rows)) :
    ∃ r ∈ rows, r.ticker = s.ticker ∧ r.rsi = some s.rsi ∧ r.vol30 = some s.vol30 ∧
      r.dd90 = some s.dd90 ∧ r.mom20 = some s.mom20 ∧
      r.trend_slope = some s.trend_slope ∧ r.recent_strength = some s.recent_strength := by
  obtain ⟨z, hz, hfields⟩ := dropna_mem hs
  have hmem : z.toIndRow ∈ rows := by
    simp only [build_scores] at hz
    exact scoreRows_mem hz
  exact ⟨z.toIndRow, hmem, hfields⟩

/-- Witness for C5 (amended): the surviving row A of the NaN-free three-row
run originates from candidate row A with all weighted features defined. -/
theorem c5_witness :
    ∃ r ∈ c5rows3,
      r.ticker = "A" ∧ r.rsi = some 55 ∧ r.vol30 = some 1 ∧
      r.dd90 = some (-(1 / 10)) ∧ r.mom20 = some 1 ∧
      r.trend_slope = some 0 ∧ r.recent_strength = some 1 := by
  have h := c5_amended sqrtQ0 c5rows3
    ⟨"A", 1, 55, 0, 0, false, false, 1, -(1 / 10), 1, 0, 1, 0, 0, 0, 0, 0, 0, 0, 0⟩
    (by
      rw [c5_eval3]
      simp)
  simpa using h

/-! ### Claim theorems: the MIN_BARS boundary (C8) -/

lemma aggregate_mem {sq lg : ℚ → ℚ} {minBars : ℕ} {tab : List (String × List ℚ)}
    {r : IndRow} (h : r ∈ aggregate sq lg minBars tab) :
    ∃ p ∈ tab, minBars ≤ p.2.length ∧ r = mkIndRow sq lg p.1 p.2 := by
  rw [aggregate, List.mem_filterMap] at h
  obtain ⟨p, hp, he⟩ := h
  by_cases hc : p.2.length < minBars
  · rw [if_pos hc] at he
    exact absurd he (by simp)
  · rw [if_neg hc] at he
    exact ⟨p, hp, by omega, (Option.some.inj he).symm⟩

/-- C8: a ticker whose price series has exactly `MIN_BARS - 1` observations
never appears in the scored output, while one with exactly `MIN_BARS`
observations passes the aggregation gate and enters indicator aggregation and
scoring. -/
theorem c8_theorem (sq lg : ℚ → ℚ) (minBars : ℕ) (t : String)
    (priceTab : List (String × List ℚ)) :
    (1 ≤ minBars → (∀ p ∈ priceTab, p.1 = t → p.2.length = minBars - 1) →
      t ∉ (dropna (build_scores sq (aggregate sq lg minBars priceTab))).map
        (fun s => s.ticker)) ∧
    (∀ s : List ℚ, (t, s) ∈ priceTab → s.length = minBars →
      t ∈ (aggregate sq lg minBars priceTab).map (fun r => r.ticker)) := by
  constructor
  · intro hmb hshort hmem
    obtain ⟨srow, hsrow, hticker⟩ := List.mem_map.mp hmem
    obtain ⟨z, hz, hzt, _⟩ := dropna_mem hsrow
    have hzagg : z.toIndRow ∈ aggregate sq lg minBars priceTab := by
      simp only [build_scores] at hz
      exact scoreRows_mem hz
    obtain ⟨p, hp, hlen, hrow⟩ := aggregate_mem hzagg
    have hzt2 : z.toIndRow.ticker = t := by rw [hzt, hticker]
    have hpt : p.1 = t := by
      rw [← hzt2, hrow]
      rfl
    have := hshort p hp hpt
    omega
  · intro s hmem hlen
    have hin : mkIndRow sq lg t s ∈ aggregate sq lg minBars priceTab := by
      rw [aggregate, List.mem_filterMap]
      refine ⟨(t, s), hmem, ?_⟩
      show (if s.length < minBars then none else some (mkIndRow sq lg t s)) = _
      rw [if_neg (by omega)]
    exact List.mem_map.mpr ⟨mkIndRow sq lg t s, hin, rfl⟩

/-- Witness for C8 with `MIN_BARS = 2`: the one-point ticker `SHORT` is absent
from the scored output, while the two-point ticker `GOOD` enters
aggregation. -/
theorem c8_witness :
    "SHORT" ∉ (dropna (build_scores sqrtQ0
        (aggregate sqrtQ0 (fun _ => 0) 2 [("GOOD", [1, 2]), ("SHORT", [7])]))).map
      (fun s => s.ticker) ∧
    "GOOD" ∈ (aggregate sqrtQ0 (fun _ => 0) 2
        [("GOOD", [1, 2]), ("SHORT", [7])]).map (fun r => r.ticker) := by
  constructor
  · refine (c8_theorem sqrtQ0 (fun _ => 0) 2 "SHORT" _).1 (by norm_num) ?_
    intro p hp hpt
    rcases List.mem_cons.mp hp with rfl | hp
    · exact absurd hpt (by decide)
    · rcases List.mem_cons.mp hp with rfl | hp
      · rfl
      · simp at hp
  · exact (c8_theorem sqrtQ0 (fun _ => 0) 2 "GOOD" _).2 [1, 2] (by simp) rfl

/-! ### Constant price series: every indicator evaluates in closed form.
These feed the end-to-end pipeline runs used for the error-handling claims:
on a constant series every difference and return is `0`, every EMA equals the
price, and every z-scored feature column is constant. -/

lemma diffQ_replicate (c : ℚ) (n : ℕ) :
    diffQ (List.replicate (n + 1) c) = none :: List.replicate n (some 0) := by
  rw [List.replicate_succ]
  show none :: List.zipWith (fun prev cur => some (cur - prev))
      (c :: List.replicate n c) (List.replicate n c) = _
  rw [← List.replicate_succ, zipWith_replicate_left,
    List.take_of_length_le (show (List.replicate n c).length ≤ n + 1 by simp),
    List.map_replicate]
  norm_num

lemma upMoves_replicate (c : ℚ) (n : ℕ) :
    upMoves (List.replicate (n + 1) c) = List.replicate (n + 1) 0 := by
  rw [upMoves, diffQ_replicate, List.map_cons, List.map_replicate]
  simp [List.replicate_succ]

lemma downMoves_replicate (c : ℚ) (n : ℕ) :
    downMoves (List.replicate (n + 1) c) = List.replicate (n + 1) 0 := by
  rw [downMoves, diffQ_replicate, List.map_cons, List.map_replicate]
  simp [List.replicate_succ]

lemma pctChange_replicate (c : ℚ) (hc : c ≠ 0) (n : ℕ) :
    pctChange (List.replicate (n + 1) c) = none :: List.replicate n (some 0) := by
  rw [List.replicate_succ]
  show none :: List.zipWith (fun prev cur => some (cur / prev - 1))
      (c :: List.replicate n c) (List.replicate n c) = _
  rw [← List.replicate_succ, zipWith_replicate_left,
    List.take_of_length_le (show (List.replicate n c).length ≤ n + 1 by simp),
    List.map_replicate]
  norm_num [div_self hc]

lemma emaFrom_const (a c : ℚ) : ∀ n, emaFrom a c (List.replicate n c) = List.replicate n c
  | 0 => rfl
  | n + 1 => by
    rw [List.replicate_succ]
    show (a * c + (1 - a) * c) :: emaFrom a (a * c + (1 - a) * c) (List.replicate n c) = _
    rw [show a * c + (1 - a) * c = c by ring, emaFrom_const a c n]

lemma ema_replicate (span n : ℕ) (c : ℚ) :
    ema span (List.replicate (n + 1) c) = List.replicate (n + 1) c := by
  rw [List.replicate_succ]
  show c :: emaFrom (2 / ((span : ℚ) + 1)) c (List.replicate n c) = _
  rw [emaFrom_const]

lemma macdLines_replicate (c : ℚ) (n : ℕ) :
    macdLines (List.replicate (n + 1) c) =
      (List.replicate (n + 1) 0, List.replicate (n + 1) 0) := by
  have hml : List.zipWith (· - ·) (ema 12 (List.replicate (n + 1) c))
      (ema 26 (List.replicate (n + 1) c)) = List.replicate (n + 1) (0 : ℚ) := by
    rw [ema_replicate, ema_replicate, zipWith_replicate_left,
      List.take_of_length_le (show (List.replicate (n + 1) c).length ≤ n + 1 by simp),
      List.map_replicate]
    norm_num
  show (List.zipWith (· - ·) (ema 12 (List.replicate (n + 1) c))
      (ema 26 (List.replicate (n + 1) c)),
    ema 9 (List.zipWith (· - ·) (ema 12 (List.replicate (n + 1) c))
      (ema 26 (List.replicate (n + 1) c)))) = _
  rw [hml, ema_replicate]

lemma meanQ_replicate (c : ℚ) (n : ℕ) (hn : n ≠ 0) : meanQ (List.replicate n c) = c := by
  rw [meanQ, List.sum_replicate, List.length_replicate, nsmul_eq_mul,
    mul_div_cancel_left₀ _ (show ((n : ℚ)) ≠ 0 from Nat.cast_ne_zero.mpr hn)]

lemma sampleVar_replicate (c : ℚ) (n : ℕ) (hn : n ≠ 0) :
    sampleVar (List.replicate n c) = 0 := by
  rw [sampleVar, meanQ_replicate c n hn]
  simp [List.map_replicate, List.sum_replicate]

lemma rsiLast_replicate (c : ℚ) (n : ℕ) (hn : 14 ≤ n) :
    rsiLast (List.replicate n c) = some 0 := by
  obtain ⟨m, rfl⟩ : ∃ m, n = m + 1 := ⟨n - 1, by omega⟩
  have hne0 : List.replicate (m + 1) (0 : ℚ) ≠ [] := by
    intro h
    have := congrArg List.length h
    simp at this
  have hup : (rollingW 14 meanQ ((List.replicate (m + 1) (0 : ℚ)).map some)).getLastD none
      = some 0 := by
    rw [rollingW_map_some_getLastD 14 meanQ _ hne0, List.length_replicate,
      if_neg (by omega), List.reverse_replicate, List.take_replicate,
      meanQ_replicate 0 _ (by omega)]
  have hneA : rollingW 14 meanQ ((List.replicate (m + 1) (0 : ℚ)).map some) ≠ [] := by
    intro h
    have := congrArg List.length h
    rw [rollingW_length] at this
    simp at this
  rw [rsiLast, rsiSeries, upMoves_replicate, downMoves_replicate,
    getLastD_zipWith _ _ _ none none none rfl hneA, hup]
  show some (100 - 100 / (1 + 0 / (0 + epsZ))) = some 0
  norm_num [epsZ]

lemma vol_replicate (c : ℚ) (hc : c ≠ 0) (n : ℕ) (hn : 31 ≤ n) :
    annualized_vol sqrtQ0 (List.replicate n c) 30 = some 0 := by
  obtain ⟨m, rfl⟩ : ∃ m, n = m + 1 := ⟨n - 1, by omega⟩
  have hnel : (none :: List.replicate m (some (0 : ℚ))) ≠ [] := List.cons_ne_nil _ _
  have hlast : (rollingW 30 (fun vs => sqrtQ0 (sampleVar vs))
      (pctChange (List.replicate (m + 1) c))).getLastD none = some 0 := by
    rw [pctChange_replicate c hc m, rollingW_getLastD 30 _ _ hnel]
    have hrev : (none :: List.replicate m (some (0 : ℚ))).reverse.take 30
        = List.replicate 30 (some (0 : ℚ)) := by
      rw [List.reverse_cons, List.reverse_replicate,
        List.take_append_of_le_length (by rw [List.length_replicate]; omega),
        List.take_replicate]
      congr 1
      omega
    rw [show (none :: List.replicate m (some (0 : ℚ))).length = m + 1 by simp,
      if_neg (by omega), hrev,
      show List.replicate 30 (some (0 : ℚ)) = (List.replicate 30 (0 : ℚ)).map some by
        rw [List.map_replicate],
      allSome_map_some]
    show some (sqrtQ0 (sampleVar (List.replicate 30 (0 : ℚ)))) = some 0
    rw [sampleVar_replicate 0 30 (by omega), sqrtQ0_zero]
  rw [annualized_vol, hlast]
  show some ((0 : ℚ) * sqrtQ0 252) = some 0
  rw [zero_mul]

lemma dd_replicate (c : ℚ) (hc : 0 < c) (n : ℕ) (hn : 90 ≤ n) :
    max_drawdown (List.replicate n c) 90 = some 0 := by
  have hval : ∀ i, i < n → 90 ≤ i + 1 →
      (List.replicate n c).getD i 0 /
        (listMax (winAt (List.replicate n c) 90 i)).getD 0 - 1 = 0 := by
    intro i hi hwi
    have hwin : winAt (List.replicate n c) 90 i
        = List.replicate (min 90 (min (i + 1) n)) c := by
      simp only [winAt, List.take_replicate, List.reverse_replicate]
    rw [hwin, listMax_replicate c (min 90 (min (i + 1) n)) (by omega),
      Option.getD_some, getD_replicate, if_pos hi, div_self (ne_of_gt hc), sub_self]
  rw [max_drawdown_eq]
  have hmem : (0 : ℚ) ∈ (ddList (List.replicate n c) 90).reduceOption := by
    rw [mem_dd]
    exact ⟨89, by rw [List.length_replicate]; omega, by omega,
      (hval 89 (by omega) (by omega)).symm⟩
  have hub : ∀ q ∈ (ddList (List.replicate n c) 90).reduceOption, q = 0 := by
    intro q hq
    obtain ⟨i, hi, hwi, rfl⟩ := (mem_dd _ 90 q).mp hq
    rw [List.length_replicate] at hi
    exact hval i hi hwi
  obtain ⟨m, hm⟩ := listMin_isSome
    (show (ddList (List.replicate n c) 90).reduceOption ≠ [] by
      intro h
      rw [h] at hmem
      simp at hmem)
  rw [hm, hub m (listMin_spec hm).1]

lemma slope_replicate (c : ℚ) (n : ℕ) (hn : 10 ≤ n) :
    trend_slope (fun _ => (0 : ℚ)) (List.replicate n c) 90 = some 0 := by
  simp only [trend_slope, List.length_replicate, List.drop_replicate, List.map_replicate,
    List.sum_replicate, smul_zero, zero_div, sub_zero, mul_zero]
  rw [if_neg (by omega), zipWith_replicate_right]
  simp

lemma rst_replicate (c : ℚ) (hc : c ≠ 0) (n : ℕ) (hn : 6 ≤ n) :
    recent_strength (List.replicate n c) = some 0 := by
  obtain ⟨m, rfl⟩ : ∃ m, n = m + 1 := ⟨n - 1, by omega⟩
  have hdrop : (pctChange (List.replicate (m + 1) c)).drop
      ((pctChange (List.replicate (m + 1) c)).length - 5)
      = List.replicate 5 (some (0 : ℚ)) := by
    rw [pctChange_replicate c hc m,
      show (none :: List.replicate m (some (0 : ℚ))).length = m + 1 by simp,
      show m + 1 - 5 = (m - 5) + 1 by omega,
      List.drop_succ_cons, List.drop_replicate]
    congr 1
    omega
  simp only [recent_strength]
  rw [hdrop]
  rw [if_neg (by simp)]
  rw [countP_replicate]
  norm_num

lemma mom_replicate (c : ℚ) (hc : c ≠ 0) (n : ℕ) (hn : 21 ≤ n) :
    momentum (List.replicate n c) 20 = some 0 := by
  rw [momentum, List.length_replicate, if_neg (by omega),
    getLastD_replicate c 0 n (by omega), getD_replicate, if_pos (by omega),
    div_self hc, sub_self]

/-- A constant positive series of at least 90 bars yields the fully-defined,
all-zero indicator row. -/
lemma mkIndRow_const (t : String) (c : ℚ) (hc : 0 < c) (n : ℕ) (hn : 90 ≤ n) :
    mkIndRow sqrtQ0 (fun _ => (0 : ℚ)) t (List.replicate n c) =
      ⟨t, c, some 0, 0, 0, false, false, some 0, some 0, some 0, some 0, some 0⟩ := by
  obtain ⟨m, rfl⟩ : ∃ m, n = m + 1 := ⟨n - 1, by omega⟩
  simp only [mkIndRow, macdLines_replicate]
  rw [getLastD_replicate c 0 (m + 1) (by omega),
    getLastD_replicate (0 : ℚ) 0 (m + 1) (by omega),
    rsiLast_replicate c (m + 1) (by omega),
    vol_replicate c (ne_of_gt hc) (m + 1) (by omega),
    dd_replicate c hc (m + 1) (by omega),
    mom_replicate c (ne_of_gt hc) (m + 1) (by omega),
    slope_replicate c (m + 1) (by omega),
    rst_replicate c (ne_of_gt hc) (m + 1) (by omega),
    show decide ((0 : ℚ) < 0) = false from by decide]

/-- The two-ticker constant-series price table: 90 bars at 10 for `AAA`,
90 bars at 20 for `BBB`. -/
def constTab : List (String × List ℚ) :=
  [("AAA", List.replicate 90 10), ("BBB", List.replicate 90 20)]

/-- The indicator row of a 90-bar constant series at price 10. -/
def constRowA : IndRow :=
  ⟨"AAA", 10, some 0, 0, 0, false, false, some 0, some 0, some 0, some 0, some 0⟩

/-- The indicator row of a 90-bar constant series at price 20. -/
def constRowB : IndRow :=
  ⟨"BBB", 20, some 0, 0, 0, false, false, some 0, some 0, some 0, some 0, some 0⟩

/-- The scored-and-dropped row for `AAA`: all z-scores and the combined score
are 0. -/
def constSA : SRow :=
  ⟨"AAA", 10, 0, 0, 0, false, false, 0, 0, 0, 0, 0, 0, 0, 0, 0, 0, 0, 0, 0⟩

/-- The scored-and-dropped row for `BBB`. -/
def constSB : SRow :=
  ⟨"BBB", 20, 0, 0, 0, false, false, 0, 0, 0, 0, 0, 0, 0, 0, 0, 0, 0, 0, 0⟩

lemma agg_const : aggregate sqrtQ0 (fun _ => (0 : ℚ)) 90 constTab
    = [constRowA, constRowB] := by
  have hA : mkIndRow sqrtQ0 (fun _ => (0 : ℚ)) "AAA" (List.replicate 90 10) = constRowA :=
    (mkIndRow_const "AAA" 10 (by norm_num) 90 (by norm_num)).trans rfl
  have hB : mkIndRow sqrtQ0 (fun _ => (0 : ℚ)) "BBB" (List.replicate 90 20) = constRowB :=
    (mkIndRow_const "BBB" 20 (by norm_num) 90 (by norm_num)).trans rfl
  simp only [aggregate, constTab, List.filterMap_cons, List.filterMap_nil,
    List.length_replicate, lt_self_iff_false, if_false, hA, hB]

lemma const_eval : dropna (build_scores sqrtQ0 [constRowA, constRowB])
    = [constSA, constSB] := by
  have h1 : build_scores sqrtQ0 [constRowA, constRowB] =
      scoreRows (zscoreCol sqrtQ0 (List.replicate 2 (some 0)))
        (zscoreCol sqrtQ0 (List.replicate 2 (some 0)))
        (zscoreCol sqrtQ0 (List.replicate 2 (some 0)))
        (zscoreCol sqrtQ0 (List.replicate 2 (some 0)))
        ((zscoreCol sqrtQ0 (List.replicate 2 (some 0))).map (fun z? => z?.map (- ·)))
        ((zscoreCol sqrtQ0 (List.replicate 2 (some 0))).map (fun z? => z?.map (- ·)))
        (zscoreCol sqrtQ0 (List.replicate 2 (some 0))) 0 [constRowA, constRowB] := by
    simp only [build_scores, constRowA, constRowB]
    norm_num [List.replicate_succ]
  rw [h1, zscoreCol_const sqrtQ0 sqrtQ0_zero 0 2 (by norm_num), neg_map_zero_col]
  have h3 : scoreRows (List.replicate 2 (some 0)) (List.replicate 2 (some 0))
      (List.replicate 2 (some 0)) (List.replicate 2 (some 0)) (List.replicate 2 (some 0))
      (List.replicate 2 (some 0)) (List.replicate 2 (some 0)) 0 [constRowA, constRowB] =
      [⟨⟨"AAA", 10, some 0, 0, 0, false, false, some 0, some 0, some 0, some 0, some 0⟩,
        some 0, some 0, some 0, some 0, some 0, some 0, some 0, some 0⟩,
       ⟨⟨"BBB", 20, some 0, 0, 0, false, false, some 0, some 0, some 0, some 0, some 0⟩,
        some 0, some 0, some 0, some 0, some 0, some 0, some 0, some 0⟩] := by
    norm_num [scoreRows, constRowA, constRowB, List.replicate_succ, wTrend, wMom,
      wRsiQ, wMacdQ, wLowVol, wLowDD, wRStrength]
  rw [h3]
  rfl

lemma filter_low_const : risk_filters "low" [constSA, constSB] = [] := by
  rw [risk_filters, if_pos rfl]
  norm_num [medianQ, sortAsc, insertAsc, constSA, constSB, List.filter]

lemma alloc_const : allocations [constSA, constSB] = [⟨"AAA", 50, 0⟩, ⟨"BBB", 50, 0⟩] := by
  have e50 : round2 (50 : ℚ) = 50 := by
    norm_num [round2, rhe, round_eq, Int.fract]
  have e0 : round3 (0 : ℚ) = 0 := by
    norm_num [round3, rhe, round_eq, Int.fract]
  have hm : listMin ([constSA, constSB].map fun r => r.score) = some 0 := by
    norm_num [listMin, constSA, constSB]
  simp only [allocations, hm, Option.getD_some]
  norm_num [constSA, constSB, epsW, max_self, e50, e0]

/-! ### Claim theorems: error handling of the portfolio builder (C1, C4) -/

/-- C1 counterexample: with two 90-bar constant-series tickers and
`risk = "low"`, every earlier pipeline stage is non-empty (two rows survive
scoring and `dropna`), the risk filter then eliminates every row (no
volatility is strictly below the cross-sectional median), and yet
`generate_portfolio` raises no terminal error: it returns a success response
with an empty `recommended_assets` list — exactly the empty portfolio
structure the claim says is never returned. -/
theorem c1_counterexample :
    dropna (build_scores sqrtQ0 (aggregate sqrtQ0 (fun _ => (0 : ℚ)) 90 constTab))
      = [constSA, constSB] ∧
    risk_filters (strLower "low")
      (dropna (build_scores sqrtQ0 (aggregate sqrtQ0 (fun _ => (0 : ℚ)) 90 constTab)))
      = [] ∧
    generate_portfolio sqrtQ0 (fun _ => (0 : ℚ)) 90 "low" "balanced" ["AAA", "BBB"] constTab
      = Except.ok ⟨[], ⟨0, 0, none⟩⟩ := by
  have hd : dropna (build_scores sqrtQ0 (aggregate sqrtQ0 (fun _ => (0 : ℚ)) 90 constTab))
      = [constSA, constSB] := by
    rw [agg_const, const_eval]
  have hlow : strLower "low" = "low" := by decide
  have hall : constTab.all (fun p => p.2.isEmpty) = false := by decide
  refine ⟨hd, ?_, ?_⟩
  · rw [hlow, hd, filter_low_const]
  · simp only [generate_portfolio, agg_const, const_eval, hlow, filter_low_const, hall]
    simp [sortDesc, allocations, listMin]

/-- C1 (amended): when the universe, the price table, and the aggregated
indicator rows are all non-empty but zero rows survive risk filtering,
`generate_portfolio` raises no error at all — there is no emptiness check
after `risk_filters` — and instead returns a success response with an empty
`recommended_assets` list, `assets_analyzed = 0`, `recommended = 0` and a
null `avg_score`. -/
theorem c1_amended (sq lg : ℚ → ℚ) (minBars : ℕ) (risk diversification : String)
    (univ : List String) (priceTab : List (String × List ℚ))
    (h1 : univ.isEmpty = false)
    (h2 : priceTab.all (fun p => p.2.isEmpty) = false)
    (h3 : (aggregate sq lg minBars priceTab).isEmpty = false)
    (h4 : risk_filters (strLower risk)
        (dropna (build_scores sq (aggregate sq lg minBars priceTab))) = []) :
    generate_portfolio sq lg minBars risk diversification univ priceTab =
      Except.ok ⟨[], ⟨0, 0, none⟩⟩ := by
  simp only [generate_portfolio, h1, h2, h3, h4, Bool.false_eq_true, if_false]
  simp [sortDesc, allocations, listMin]

/-- Witness for C1 (amended): the concrete two-ticker constant-series run with
`risk = "low"` satisfies every hypothesis — all stages non-empty, the risk
filter empties the frame — and the builder returns the empty success
portfolio. -/
theorem c1_witness :
    generate_portfolio sqrtQ0 (fun _ => (0 : ℚ)) 90 "low" "balanced" ["AAA", "BBB"] constTab
      = Except.ok ⟨[], ⟨0, 0, none⟩⟩ :=
  c1_amended sqrtQ0 (fun _ => (0 : ℚ)) 90 "low" "balanced" ["AAA", "BBB"] constTab
    rfl (by decide)
    (by rw [agg_const]; rfl)
    (by rw [show strLower "low" = "low" from by decide, agg_const, const_eval,
      filter_low_const])

/-- C4 counterexample: a request with an unknown risk tier (`"WeIrd"`) and an
unknown diversification preference (`"xyz"`) is not rejected — no
`InvalidRequestError` exists in the code. The lowercased values match none of
the known tiers or preferences, yet the full pipeline performs scoring and
selection and returns a complete two-asset portfolio: `risk_filters` silently
passes every row through and `picks_by_preferences` silently defaults the
base count to 5. -/
theorem c4_counterexample :
    strLower "WeIrd" ≠ "low" ∧ strLower "WeIrd" ≠ "high" ∧
    strLower "xyz" ≠ "concentrated" ∧ strLower "xyz" ≠ "balanced" ∧
    strLower "xyz" ≠ "full" ∧
    generate_portfolio sqrtQ0 (fun _ => (0 : ℚ)) 90 "WeIrd" "xyz" ["AAA", "BBB"] constTab
      = Except.ok ⟨[⟨"AAA", 50, 0⟩, ⟨"BBB", 50, 0⟩], ⟨2, 2, some 0⟩⟩ := by
  refine ⟨by decide, by decide, by decide, by decide, by decide, ?_⟩
  have hw : strLower "WeIrd" = "weird" := by decide
  have hx : strLower "xyz" = "xyz" := by decide
  have hall : constTab.all (fun p => p.2.isEmpty) = false := by decide
  have hfil : risk_filters "weird" [constSA, constSB] = [constSA, constSB] := by
    rw [risk_filters, if_neg (by decide), if_neg (by decide)]
  have hsort : sortDesc (fun r => r.score) [constSA, constSB] = [constSA, constSB] := by
    simp [sortDesc, insertDesc, constSA, constSB]
  have hpick : picks_by_preferences "weird" "xyz" [constSA, constSB] = 5 := by decide
  have hscA : constSA.score = 0 := rfl
  have hscB : constSB.score = 0 := rfl
  have hmean : meanQ [(0 : ℚ), 0] = 0 := by norm_num [meanQ]
  have hr3 : round3 (0 : ℚ) = 0 := by norm_num [round3, rhe, round_eq, Int.fract]
  simp only [generate_portfolio, agg_const, const_eval, hw, hx, hfil, hpick]
  simp [hall, hsort, alloc_const, hscA, hscB, hmean, hr3]

/-- C4 (amended): malformed request parameters are never rejected — there is
no `InvalidRequestError` and no validation boundary.  For any risk tier whose
lowercase form is neither `"low"` nor `"high"` and any diversification
preference whose lowercase form is none of the known values, `risk_filters`
is the identity, `picks_by_preferences` silently defaults to a base count of
5, and whenever the three emptiness checks pass the builder runs the full
scoring-and-selection pipeline and returns a success response. -/
theorem c4_amended (risk diversification : String)
    (hr1 : strLower risk ≠ "low") (hr2 : strLower risk ≠ "high")
    (hd1 : strLower diversification ≠ "concentrated")
    (hd2 : strLower diversification ≠ "balanced")
    (hd3 : strLower diversification ≠ "full") :
    (∀ rows : List SRow, risk_filters (strLower risk) rows = rows) ∧
    (∀ pool : List SRow,
      picks_by_preferences (strLower risk) (strLower diversification) pool = 5) ∧
    (∀ (sq lg : ℚ → ℚ) (minBars : ℕ) (univ : List String)
        (priceTab : List (String × List ℚ)),
      univ.isEmpty = false → priceTab.all (fun p => p.2.isEmpty) = false →
      (aggregate sq lg minBars priceTab).isEmpty = false →
      ∃ res : PResult,
        generate_portfolio sq lg minBars risk diversification univ priceTab =
          Except.ok res) := by
  refine ⟨?_, ?_, ?_⟩
  · intro rows
    rw [risk_filters, if_neg hr1, if_neg hr2]
  · intro pool
    rw [picks_by_preferences]
    simp only [if_neg hd1, if_neg hd2, if_neg hd3, if_neg hr1, if_neg hr2]
    rfl
  · intro sq lg minBars univ priceTab h1 h2 h3
    cases he : generate_portfolio sq lg minBars risk diversification univ priceTab with
    | ok r => exact ⟨r, rfl⟩
    | error e =>
      simp only [generate_portfolio, h1, h2, h3, Bool.false_eq_true, if_false] at he
      exact Except.noConfusion he

/-- Witness for C4 (amended) at the unknown parameter values `"WeIrd"` /
`"xyz"`, with the pipeline conjunct instantiated at the concrete
constant-series table. -/
theorem c4_witness :
    risk_filters (strLower "WeIrd") [constSA, constSB] = [constSA, constSB] ∧
    picks_by_preferences (strLower "WeIrd") (strLower "xyz") [constSA, constSB] = 5 ∧
    ∃ res : PResult,
      generate_portfolio sqrtQ0 (fun _ => (0 : ℚ)) 90 "WeIrd" "xyz" ["AAA", "BBB"] constTab
        = Except.ok res :=
  ⟨(c4_amended "WeIrd" "xyz" (by decide) (by decide) (by decide) (by decide)
      (by decide)).1 [constSA, constSB],
   (c4_amended "WeIrd" "xyz" (by decide) (by decide) (by decide) (by decide)
      (by decide)).2.1 [constSA, constSB],
   (c4_amended "WeIrd" "xyz" (by decide) (by decide) (by decide) (by decide)
      (by decide)).2.2 sqrtQ0 (fun _ => (0 : ℚ)) 90 ["AAA", "BBB"] constTab rfl
     (by decide) (by rw [agg_const]; rfl)⟩

end InvestBot
